import Mathlib

/-!
Verification of the deepin-anything logger core against its specification.

The definitions below are a shallow embedding of the C sources under
`src/logger` (`datatype.c` / the event-logger unit, `file_log.c`,
`config.c`, `event_listener.c`) and the mount tracker: pure functions
translate directly, stateful code is explicit state passing, machine
integers are `Nat`/`Int` with explicit truncation where overflow matters.
-/

/-! ## Action codes

The numeric action codes come from `vfs_change_consts.h`, which belongs to
the kernel module and is not part of the logger sources; the logger code
only requires that they are distinct small values (below 32, per the event
mask being a 32-bit bitmap, and below 100, per the sentinel comments).
They are modelled as distinct naturals 0..11.  `ACT_TERMINATE` (value 100,
`datatype.c`) and `ACT_INVALID` (value 100, `event_listener.c`) come from
the logger sources themselves and share the same code.
-/

def ACT_NEW_FILE : Nat := 0
def ACT_NEW_LINK : Nat := 1
def ACT_NEW_SYMLINK : Nat := 2
def ACT_NEW_FOLDER : Nat := 3
def ACT_DEL_FILE : Nat := 4
def ACT_DEL_FOLDER : Nat := 5
def ACT_RENAME_FROM_FILE : Nat := 6
def ACT_RENAME_TO_FILE : Nat := 7
def ACT_RENAME_FROM_FOLDER : Nat := 8
def ACT_RENAME_TO_FOLDER : Nat := 9
def ACT_MOUNT : Nat := 10
def ACT_UNMOUNT : Nat := 11

/-- `#define ACT_TERMINATE 100` in the event-logger unit of `datatype.c`. -/
def ACT_TERMINATE : Nat := 100

/-- `#define ACT_INVALID 100` in `event_listener.c`. -/
def ACT_INVALID : Nat := 100

/-! ## FileEvent (`datatype.h`) -/

/-- `FileEvent` from `datatype.h`: `action : guint8`, `cookie : guint32`,
`major : guint16`, `minor : guint8`, bounded C strings for the two paths,
`uid : guint32`, `pid : gint32`. -/
structure FileEvent where
  action : Nat
  cookie : Nat
  major : Nat
  minor : Nat
  event_path : String
  uid : Nat
  pid : Int
  process_path : String
deriving Repr, DecidableEq

/-- `event_action_to_string` from `datatype.c` (the `switch` on the action
code). -/
def event_action_to_string (action : Nat) : String :=
  if action = ACT_NEW_FILE then "file-created"
  else if action = ACT_NEW_LINK then "link-created"
  else if action = ACT_NEW_SYMLINK then "symlink-created"
  else if action = ACT_NEW_FOLDER then "folder-created"
  else if action = ACT_DEL_FILE then "file-deleted"
  else if action = ACT_DEL_FOLDER then "folder-deleted"
  else if action = ACT_RENAME_FROM_FILE ∨ action = ACT_RENAME_TO_FILE then "file-renamed"
  else if action = ACT_RENAME_FROM_FOLDER ∨ action = ACT_RENAME_TO_FOLDER then "folder-renamed"
  else "unknown"

/-! ## CSV escaping and formatting (`datatype.c`, event-logger unit) -/

/-- The `strpbrk(field, ",\"\n\r")` test of `escape_csv_field`: does the
field contain a character that requires escaping? -/
def needs_csv_escape (s : String) : Bool :=
  s.data.any fun c => c = ',' ∨ c = '"' ∨ c = '\n' ∨ c = '\r'

/-- The character loop of `escape_csv_field`: every `"` is emitted as `""`,
every other character verbatim. -/
def csv_escape_body : List Char → List Char
  | [] => []
  | c :: rest =>
      if c = '"' then '"' :: '"' :: csv_escape_body rest
      else c :: csv_escape_body rest

/-- `escape_csv_field` from `datatype.c`: `none` when no escaping is needed
(the caller then uses the field verbatim), otherwise the field surrounded
by double quotes with internal double quotes doubled. -/
def escape_csv_field (field : String) : Option String :=
  if needs_csv_escape field = false then none
  else some (String.mk ('"' :: (csv_escape_body field.data ++ ['"'])))

/-- The `escaped ? escaped : original` idiom used at every call site of
`escape_csv_field` in `format_single_event_csv` / `format_rename_event_csv`. -/
def csv_field (s : String) : String :=
  (escape_csv_field s).getD s

/-- `format_single_event_csv` from `datatype.c`.  The timestamp produced by
`get_timestamp_string` reads the wall clock, so it is passed as a
parameter; its format `YYYY-MM-DD HH:MM:SS.mmm` never contains a CSV
special character. -/
def format_single_event_csv (timestamp : String) (e : FileEvent) : String :=
  timestamp ++ "," ++ csv_field e.process_path ++ "," ++ toString e.uid ++ ","
    ++ toString e.pid ++ "," ++ event_action_to_string e.action ++ ","
    ++ csv_field e.event_path ++ "\n"

/-- `format_rename_event_csv` from `datatype.c`: uid/pid/process-path/action
are taken from the `from` event, followed by the from-path and the to-path. -/
def format_rename_event_csv (timestamp : String) (from_event to_event : FileEvent) : String :=
  timestamp ++ "," ++ csv_field from_event.process_path ++ "," ++ toString from_event.uid ++ ","
    ++ toString from_event.pid ++ "," ++ event_action_to_string from_event.action ++ ","
    ++ csv_field from_event.event_path ++ "," ++ csv_field to_event.event_path ++ "\n"

/-! ## An RFC 4180 record parser

Modelled from the spec: the spec's CSV round-trip property quantifies over
"a conformant RFC 4180 parser", which is not part of the repository.  The
parser below reads one record: fields separated by commas, a field either
unquoted (then free of `,`, `"`, CR, LF) or quoted (then `""` denotes one
`"` and any other character stands for itself), the record terminated by
CRLF, by a bare LF (what the logger emits), or by end of input. -/

inductive CsvMode where
  | fieldStart | unquoted | quoted | quoteEnd | sawCR | done
deriving Repr, DecidableEq

structure CsvPState where
  fields : List String
  cur : List Char
  mode : CsvMode
deriving Repr

/-- One character of RFC 4180 record parsing; `none` is a parse error. -/
def rfc4180_step (st : CsvPState) (c : Char) : Option CsvPState :=
  match st.mode with
  | .fieldStart =>
      if c = '"' then some ⟨st.fields, st.cur, .quoted⟩
      else if c = ',' then some ⟨st.fields ++ [String.mk st.cur], [], .fieldStart⟩
      else if c = '\n' then some ⟨st.fields ++ [String.mk st.cur], [], .done⟩
      else if c = '\r' then some ⟨st.fields, st.cur, .sawCR⟩
      else some ⟨st.fields, st.cur ++ [c], .unquoted⟩
  | .unquoted =>
      if c = ',' then some ⟨st.fields ++ [String.mk st.cur], [], .fieldStart⟩
      else if c = '\n' then some ⟨st.fields ++ [String.mk st.cur], [], .done⟩
      else if c = '\r' then some ⟨st.fields, st.cur, .sawCR⟩
      else if c = '"' then none
      else some ⟨st.fields, st.cur ++ [c], .unquoted⟩
  | .quoted =>
      if c = '"' then some ⟨st.fields, st.cur, .quoteEnd⟩
      else some ⟨st.fields, st.cur ++ [c], .quoted⟩
  | .quoteEnd =>
      if c = '"' then some ⟨st.fields, st.cur ++ ['"'], .quoted⟩
      else if c = ',' then some ⟨st.fields ++ [String.mk st.cur], [], .fieldStart⟩
      else if c = '\n' then some ⟨st.fields ++ [String.mk st.cur], [], .done⟩
      else if c = '\r' then some ⟨st.fields, st.cur, .sawCR⟩
      else none
  | .sawCR =>
      if c = '\n' then some ⟨st.fields ++ [String.mk st.cur], [], .done⟩
      else none
  | .done => none

def rfc4180_run (st : CsvPState) : List Char → Option CsvPState
  | [] => some st
  | c :: rest =>
      match rfc4180_step st c with
      | none => none
      | some st' => rfc4180_run st' rest

/-- Accept end of input: inside quotes or after a lone CR is an error;
otherwise the last field (if the terminator has not already closed it) is
appended. -/
def rfc4180_finish (st : CsvPState) : Option (List String) :=
  match st.mode with
  | .fieldStart => some (st.fields ++ [String.mk st.cur])
  | .unquoted => some (st.fields ++ [String.mk st.cur])
  | .quoteEnd => some (st.fields ++ [String.mk st.cur])
  | .done => some st.fields
  | .quoted => none
  | .sawCR => none

def rfc4180_parse_record (line : String) : Option (List String) :=
  match rfc4180_run ⟨[], [], .fieldStart⟩ line.data with
  | none => none
  | some st => rfc4180_finish st

/-! ### Helper definitions used by the CSV theorems -/

/-- A character that never triggers CSV escaping. -/
def CharOk (c : Char) : Prop := c ≠ ',' ∧ c ≠ '"' ∧ c ≠ '\n' ∧ c ≠ '\r'

/-- Boolean form of `CharOk`, used for the decimal-digit lemmas. -/
def csvPlainChar (c : Char) : Bool :=
  ¬ (c = ',' ∨ c = '"' ∨ c = '\n' ∨ c = '\r')

/-- The parser state reached after reading one emitted CSV field from the
start-of-field state. -/
def afterField (fs : List String) (f : String) : CsvPState :=
  if needs_csv_escape f then ⟨fs, f.data, .quoteEnd⟩
  else if f.data.isEmpty then ⟨fs, [], .fieldStart⟩
  else ⟨fs, f.data, .unquoted⟩

/-- A CSV record built the way the formatting functions do: every field
passed through the escape-or-verbatim emission, joined by commas. -/
def csvEmitRecord : List String → String
  | [] => ""
  | [f] => csv_field f
  | f :: rest => csv_field f ++ "," ++ csvEmitRecord rest

/-! ## Event worker (`datatype.c`, event-logger unit)

`worker_thread_func` pops `FileEvent`s from the queue until the terminate
sentinel; the queue is modelled as the list of events popped, one thread
step per element.  Each `log_handler` invocation is recorded as a
`LogEmit`; `render_emit` is the CSV string the handler actually receives,
so `worker_output` is the exact sequence of CSV lines handed to the sink. -/

/-- One `logger->log_handler(...)` call made by the worker: either a
single-event line or a combined rename line for a matched pair. -/
inductive LogEmit where
  | single (e : FileEvent)
  | rename (from_event to_event : FileEvent)
deriving Repr, DecidableEq

/-- The CSV line carried by one handler call. -/
def render_emit (timestamp : String) : LogEmit → String
  | .single e => format_single_event_csv timestamp e
  | .rename f t => format_rename_event_csv timestamp f t

/-- The four-way rename-action test of `worker_thread_func`. -/
def is_rename_action (a : Nat) : Bool :=
  a = ACT_RENAME_FROM_FILE ∨ a = ACT_RENAME_TO_FILE ∨
    a = ACT_RENAME_FROM_FOLDER ∨ a = ACT_RENAME_TO_FOLDER

/-- The `ACT_RENAME_FROM_FILE || ACT_RENAME_FROM_FOLDER` test of
`handle_rename_event`. -/
def is_rename_from (a : Nat) : Bool :=
  a = ACT_RENAME_FROM_FILE ∨ a = ACT_RENAME_FROM_FOLDER

/-- The `ACT_RENAME_TO_FILE || ACT_RENAME_TO_FOLDER` test of
`handle_rename_event`. -/
def is_rename_to (a : Nat) : Bool :=
  a = ACT_RENAME_TO_FILE ∨ a = ACT_RENAME_TO_FOLDER

/-- `g_hash_table_lookup(logger->rename_events, cookie)`: the pending map
is an association list keyed by cookie. -/
def rename_lookup : List (Nat × FileEvent) → Nat → Option FileEvent
  | [], _ => none
  | (k, e) :: rest, ck => if k = ck then some e else rename_lookup rest ck

/-- `g_hash_table_remove(logger->rename_events, cookie)`. -/
def rename_remove : List (Nat × FileEvent) → Nat → List (Nat × FileEvent)
  | [], _ => []
  | (k, e) :: rest, ck =>
      if k = ck then rename_remove rest ck else (k, e) :: rename_remove rest ck

/-- `validate_file_event` from `datatype.c`: empty `process_path`, empty
`event_path` or `pid <= 0` fail validation (the action field is not
examined).  The `event == NULL` guard has no counterpart here because the
model has no null events. -/
def validate_file_event (e : FileEvent) : Bool :=
  if e.process_path.data.isEmpty then false
  else if e.event_path.data.isEmpty then false
  else if e.pid ≤ 0 then false
  else true

/-- `handle_rename_event` from `datatype.c`: look the cookie up in the
pending map; with no pending entry a rename-from is inserted and a
rename-to is dropped; with a pending entry a combined line is emitted iff
the pending entry is a `from` and the new event a `to`, and the entry is
removed either way. -/
def handle_rename_event (pending : List (Nat × FileEvent)) (e : FileEvent) :
    List (Nat × FileEvent) × Option LogEmit :=
  match rename_lookup pending e.cookie with
  | none =>
      if is_rename_from e.action then ((e.cookie, e) :: pending, none)
      else (pending, none)
  | some from_event =>
      if is_rename_from from_event.action ∧ is_rename_to e.action then
        (rename_remove pending e.cookie, some (.rename from_event e))
      else
        (rename_remove pending e.cookie, none)

/-- The body of `worker_thread_func`: process queued events in order until
the terminate sentinel (or the end of the modelled queue), producing the
sequence of handler calls.  The `is_running` flag only matters for the
cross-thread shutdown handshake and is not part of the per-event logic. -/
def worker_thread_trace : List FileEvent → List (Nat × FileEvent) → List LogEmit
  | [], _ => []
  | e :: rest, pending =>
      if e.action = ACT_TERMINATE then []
      else if validate_file_event e = false then worker_thread_trace rest pending
      else if is_rename_action e.action then
        match handle_rename_event pending e with
        | (pending', some emit) => emit :: worker_thread_trace rest pending'
        | (pending', none) => worker_thread_trace rest pending'
      else .single e :: worker_thread_trace rest pending

/-- The CSV lines the worker hands to the sink, in order. -/
def worker_output (timestamp : String) (queue : List FileEvent)
    (pending : List (Nat × FileEvent)) : List String :=
  (worker_thread_trace queue pending).map (render_emit timestamp)

/-- The combined rename emissions attributable to cookie `c` in a worker
trace (the pending map stores events under their own cookie, so the `from`
event of an emitted pair carries the pair's cookie). -/
def rename_emits_for (c : Nat) : List LogEmit → List (FileEvent × FileEvent)
  | [] => []
  | .single _ :: rest => rename_emits_for c rest
  | .rename f t :: rest =>
      if f.cookie = c then (f, t) :: rename_emits_for c rest
      else rename_emits_for c rest

/-- The queued events that reach `handle_rename_event` carrying cookie `c`:
validated rename events with that cookie. -/
def rename_filter (c : Nat) (e : FileEvent) : Bool :=
  validate_file_event e && is_rename_action e.action && decide (e.cookie = c)

/-- The per-cookie pairing automaton: the state is the pending entry for
one fixed cookie, the input the validated rename events carrying that
cookie, the output the combined pairs emitted for it. -/
def cookie_pair_run : Option FileEvent → List FileEvent → List (FileEvent × FileEvent)
  | _, [] => []
  | none, e :: rest =>
      if is_rename_from e.action then cookie_pair_run (some e) rest
      else cookie_pair_run none rest
  | some prev, e :: rest =>
      (if is_rename_from prev.action ∧ is_rename_to e.action then [(prev, e)] else []) ++
        cookie_pair_run none rest

/-- Every pending-map entry is stored under its event's cookie (true of
every map `handle_rename_event` ever builds, since insertion uses
`event->cookie` as the key). -/
def WellKeyed (m : List (Nat × FileEvent)) : Prop :=
  ∀ p ∈ m, (Prod.snd p).cookie = Prod.fst p

/-- The `EventLogger` state visible to `event_logger_log_event`: the
running flag, the queue contents and the pending rename map. -/
structure EventLoggerState where
  is_running : Bool
  event_queue : List FileEvent
  rename_events : List (Nat × FileEvent)
deriving Repr, DecidableEq

/-- `event_logger_log_event` from `datatype.c`: on a stopped logger the
event is freed and nothing else happens; otherwise the event is pushed. -/
def event_logger_log_event (st : EventLoggerState) (e : FileEvent) : EventLoggerState :=
  if st.is_running = false then st
  else { st with event_queue := st.event_queue ++ [e] }

/-! ## Event listener (`event_listener.c`)

`event_handler` is the netlink callback.  A message is one generic-netlink
frame after `genlmsg_parse`: the command plus the typed attributes, each
attribute possibly absent (`g_return_val_if_fail(attrs[...] != NULL, NL_SKIP)`
paths).  The single in-flight partial event `listener->event` is the
`event` field of the state: `none` models the freed/unallocated slot, and
an allocated slot whose `action` is `ACT_INVALID` is not in flight.  The
consumer callback invocation is the returned `Option FileEvent`. -/

/-- Attributes of a `VFSMONITOR_C_NOTIFY` frame. -/
structure NotifyMsg where
  act : Option Nat
  cookie : Option Nat
  major : Option Nat
  minor : Option Nat
  path : Option String
deriving Repr, DecidableEq

/-- Attributes of a `VFSMONITOR_C_NOTIFY_PROCESS_INFO` frame. -/
structure ProcInfoMsg where
  uid : Option Nat
  tgid : Option Int
  path : Option String
deriving Repr, DecidableEq

/-- One parsed netlink frame, by command code. -/
inductive NlMsg where
  | notify (m : NotifyMsg)
  | procInfo (m : ProcInfoMsg)
  | unknown (cmd : Nat)
deriving Repr, DecidableEq

/-- The listener state visible to `event_handler`: the event mask and the
single partial-event slot. -/
structure EventListenerState where
  event_mask : Nat
  event : Option FileEvent
deriving Repr, DecidableEq

/-- `file_event_new`: a zeroed `FileEvent` with `action = ACT_INVALID`. -/
def file_event_new : FileEvent :=
  ⟨ACT_INVALID, 0, 0, 0, "", 0, 0, ""⟩

/-- The `(1 << act) & listener->event_mask` test; the C shift is on a
32-bit `guint`, modelled by truncating the shifted bit modulo `2 ^ 32`. -/
def mask_accepts (mask act : Nat) : Bool :=
  ((1 <<< act) % 2 ^ 32) &&& mask ≠ 0

/-- `event_handler` from `event_listener.c` for one message.  Returns the
new state and the event dispatched to the consumer callback, if any.
The slot is lazily allocated on entry; in the NOTIFY branch the action is
stored before the presence checks of the remaining attributes, so a
NOTIFY with a missing cookie/major/minor/path still leaves a partial in
flight carrying only the new action; in the PROCESS_INFO branch all
presence checks precede the assignments. -/
def event_handler (st : EventListenerState) (msg : NlMsg) :
    EventListenerState × Option FileEvent :=
  let ev := st.event.getD file_event_new
  match msg with
  | .notify m =>
      match m.act with
      | none => ({ st with event := some ev }, none)
      | some act =>
          if mask_accepts st.event_mask act = false then
            ({ st with event := some ev }, none)
          else
            let ev1 := { ev with action := act }
            match m.cookie, m.major, m.minor, m.path with
            | some ck, some mj, some mn, some p =>
                ({ st with event := some { ev1 with
                    cookie := ck, major := mj, minor := mn, event_path := p } }, none)
            | _, _, _, _ => ({ st with event := some ev1 }, none)
  | .procInfo m =>
      if ev.action = ACT_INVALID then ({ st with event := some ev }, none)
      else
        match m.uid, m.tgid, m.path with
        | some uid, some tgid, some p =>
            ({ st with event := none },
             some { ev with uid := uid, pid := tgid, process_path := p })
        | _, _, _ => ({ st with event := some ev }, none)
  | .unknown _ => ({ st with event := some ev }, none)

/-- An input to the listener over time: either a netlink frame or a mask
reprogramming via `event_listener_set_event_mask` (its control-file write
assumed successful, after which the cached mask is replaced). -/
inductive ListenerOp where
  | msg (m : NlMsg)
  | setMask (mask : Nat)
deriving Repr, DecidableEq

/-- Run the listener over a sequence of inputs, collecting the events
dispatched to the consumer callback in order. -/
def listener_run : EventListenerState → List ListenerOp → EventListenerState × List FileEvent
  | st, [] => (st, [])
  | st, .setMask m :: rest => listener_run { st with event_mask := m } rest
  | st, .msg msg :: rest =>
      let r := event_handler st msg
      let rr := listener_run r.1 rest
      (rr.1, r.2.toList ++ rr.2)

/-- A partially built event is in flight: the slot is allocated and its
action is not the `ACT_INVALID` sentinel. -/
def in_flight (st : EventListenerState) : Bool :=
  match st.event with
  | none => false
  | some e => e.action ≠ ACT_INVALID

/-- The most recent NOTIFY or PROCESS_INFO frame of a message history
(unknown commands are skipped and ignored): the recursion prefers the
later part of the list. -/
def last_half : List NlMsg → Option NlMsg
  | [] => none
  | m :: rest =>
      match last_half rest with
      | some r => some r
      | none =>
          match m with
          | .notify n => some (.notify n)
          | .procInfo p => some (.procInfo p)
          | .unknown _ => none

/-- The claim's phrase "a NOTIFY half has been seen without its
PROCESS_INFO half", read literally over the message history: the most
recent NOTIFY/PROCESS_INFO frame is a NOTIFY. -/
def last_half_is_notify (msgs : List NlMsg) : Bool :=
  match last_half msgs with
  | some (.notify _) => true
  | _ => false

/-- A message the slot protocol reacts to under mask `mask`: a NOTIFY whose
action attribute is present and mask-accepted, or a PROCESS_INFO carrying
all three required attributes. -/
def msg_relevant (mask : Nat) : NlMsg → Bool
  | .notify m =>
      match m.act with
      | some a => mask_accepts mask a
      | none => false
  | .procInfo m => m.uid.isSome && m.tgid.isSome && m.path.isSome
  | .unknown _ => false

/-- The most recent message relevant under `mask`, if any. -/
def last_relevant (mask : Nat) : List NlMsg → Option NlMsg
  | [] => none
  | m :: rest =>
      match last_relevant mask rest with
      | some r => some r
      | none => if msg_relevant mask m then some m else none

/-- The amended pending predicate: a mask-accepted NOTIFY has been seen
with no complete PROCESS_INFO after it. -/
def pending_spec (mask : Nat) (msgs : List NlMsg) : Bool :=
  match last_relevant mask msgs with
  | some (.notify _) => true
  | _ => false

/-! ## Config cache (`config.c`)

`dconfig_get_int` (the D-Bus layer in `dconfig.c`) returns a `gint`
(32-bit) and sets an error on failure; an input is therefore an
`Option Int`, `none` for the error case.  The cache fields are `guint`;
the C assignment converts the `gint` modulo `2 ^ 32`. -/

def LOG_FILE_COUNT_DEFAULT : Nat := 10
def LOG_FILE_SIZE_DEFAULT : Nat := 50
def LOG_FILE_COUNT_MAX : Nat := 20
def LOG_FILE_SIZE_MAX : Nat := 100

/-- The C `guint` cache field receiving a `gint` value. -/
def gint_to_guint (v : Int) : Nat :=
  (v % 2 ^ 32).toNat

/-- The `log_file_count` portion of `config_load_all_values`: on error the
default, otherwise the loaded value clamped from above to
`LOG_FILE_COUNT_MAX` (there is no lower-bound check in the source). -/
def config_load_log_file_count (input : Option Int) : Nat :=
  match input with
  | none => LOG_FILE_COUNT_DEFAULT
  | some v =>
      let c := gint_to_guint v
      if c > LOG_FILE_COUNT_MAX then LOG_FILE_COUNT_MAX else c

/-- The `log_file_size` portion of `config_load_all_values`. -/
def config_load_log_file_size (input : Option Int) : Nat :=
  match input with
  | none => LOG_FILE_SIZE_DEFAULT
  | some v =>
      let c := gint_to_guint v
      if c > LOG_FILE_SIZE_MAX then LOG_FILE_SIZE_MAX else c

/-- The `log_file_count` branch of `config_dconfig_changed_handler`: on a
reload error the previous cached value is kept, otherwise the new value is
clamped from above and cached (when it equals the cached value the handler
merely returns early, leaving the same cache contents). -/
def config_changed_log_file_count (current : Nat) (input : Option Int) : Nat :=
  match input with
  | none => current
  | some v =>
      let c := gint_to_guint v
      if c > LOG_FILE_COUNT_MAX then LOG_FILE_COUNT_MAX else c

/-- The `log_file_size` branch of `config_dconfig_changed_handler`. -/
def config_changed_log_file_size (current : Nat) (input : Option Int) : Nat :=
  match input with
  | none => current
  | some v =>
      let c := gint_to_guint v
      if c > LOG_FILE_SIZE_MAX then LOG_FILE_SIZE_MAX else c

/-! ## Rotating log sink (`file_log.c`)

The on-disk state around one log base name: which `base.i.gz` archives
exist, whether the live file exists, and whether the in-flight
uncompressed `base.0` exists.  File-system operations can fail; an
environment of success oracles mirrors each fallible call of
`rotate_logs`/`compress_file`/`open_log_file`.  Warnings and debug logging
are side effects with no state and are not modelled. -/

structure LogFs where
  gz : Nat → Bool
  live : Bool
  base0 : Bool

def fs_set_gz (fs : LogFs) (i : Nat) (b : Bool) : LogFs :=
  { fs with gz := fun j => if j = i then b else fs.gz j }

/-- Success oracles for the file-system calls made during one rotation. -/
structure RotateEnv where
  unlink_gz_ok : Nat → Bool
  rename_gz_ok : Nat → Bool
  rename_live_ok : Bool
  compress_ok : Bool
  unlink_base0_ok : Bool
  open_ok : Bool

/-- `FileLogger` fields relevant to writing and rotation. -/
structure SinkState where
  out_stream : Bool
  current_file_size : Nat
  max_file_size : Nat
  max_file_count : Nat
deriving Repr, DecidableEq

/-- One file-system operation attempted by `rotate_logs`, in order. -/
inductive RotOp where
  | unlink_stale (i : Nat)
  | unlink_oldest
  | rename_archive (i : Nat)
  | rename_live
  | compress
  | open_live
deriving Repr, DecidableEq

structure RotateResult where
  ok : Bool
  st : SinkState
  fs : LogFs
  ops : List RotOp

/-- The stale-archive scan at the top of `rotate_logs`:
`for (i = max_file_count; i < 100; ++i)` unlinks `base.i.gz` while it
exists and stops at the first missing index; an unlink failure only warns
and the loop continues.  `fuel` is `100 - i` at entry. -/
def rotate_scan_stale (env : RotateEnv) (fs : LogFs) (i : Nat) : Nat → LogFs × List RotOp
  | 0 => (fs, [])
  | fuel + 1 =>
      if fs.gz i then
        let fs' := if env.unlink_gz_ok i then fs_set_gz fs i false else fs
        let r := rotate_scan_stale env fs' (i + 1) fuel
        (r.1, RotOp.unlink_stale i :: r.2)
      else (fs, [])

/-- The intermediate-archive shift of `rotate_logs`:
`for (i = max_file_count - 2; i >= 0; --i)` renames existing `base.i.gz`
to `base.(i+1).gz`; a rename failure aborts the rotation.  The argument
list is the descending index sequence. -/
def rotate_shift (env : RotateEnv) (fs : LogFs) : List Nat → Bool × LogFs × List RotOp
  | [] => (true, fs, [])
  | i :: rest =>
      if fs.gz i then
        if env.rename_gz_ok i then
          let fs' := fs_set_gz (fs_set_gz fs (i + 1) true) i false
          let r := rotate_shift env fs' rest
          (r.1, r.2.1, RotOp.rename_archive i :: r.2.2)
        else (false, fs, [RotOp.rename_archive i])
      else rotate_shift env fs rest

/-- `open_log_file`: reset the tracked size, then open the live stream in
append mode (creating the file); the fresh file's queried size is 0. -/
def rotate_open (st : SinkState) (fs : LogFs) (env : RotateEnv) (ops : List RotOp) :
    RotateResult :=
  let st' := { st with current_file_size := 0, out_stream := false }
  if env.open_ok = false then ⟨false, st', fs, ops⟩
  else ⟨true, { st' with out_stream := true }, { fs with live := true },
        ops ++ [RotOp.open_live]⟩

/-- `rotate_logs` from `file_log.c`: close the live stream, run the
stale-archive scan, delete the oldest archive, shift the intermediate
archives upward, rename the live file to `base.0` and compress it, then
reopen the live stream.  Any failing unlink of the oldest, failing rename,
failing compression or failing reopen aborts with `ok = false` (the
stale-scan and the post-compress unlink of `base.0` only warn). -/
def rotate_logs (st0 : SinkState) (fs0 : LogFs) (env : RotateEnv) : RotateResult :=
  let st := { st0 with out_stream := false }
  let scan := rotate_scan_stale env fs0 st.max_file_count (100 - st.max_file_count)
  let fs1 := scan.1
  let oldest := st.max_file_count - 1
  if fs1.gz oldest = true ∧ env.unlink_gz_ok oldest = false then
    ⟨false, st, fs1, scan.2 ++ [RotOp.unlink_oldest]⟩
  else
    let fs2 := if fs1.gz oldest then fs_set_gz fs1 oldest false else fs1
    let ops2 := scan.2 ++ (if fs1.gz oldest then [RotOp.unlink_oldest] else [])
    let shift := rotate_shift env fs2 (List.range (st.max_file_count - 1)).reverse
    if shift.1 = false then ⟨false, st, shift.2.1, ops2 ++ shift.2.2⟩
    else
      let fs3 := shift.2.1
      let ops3 := ops2 ++ shift.2.2
      if fs3.live = true then
        if env.rename_live_ok = false then ⟨false, st, fs3, ops3 ++ [RotOp.rename_live]⟩
        else
          let fs4 := { fs3 with live := false, base0 := true }
          let ops4 := ops3 ++ [RotOp.rename_live]
          if env.compress_ok = false then ⟨false, st, fs4, ops4 ++ [RotOp.compress]⟩
          else
            let fs5 := { fs_set_gz fs4 0 true with base0 := ¬ env.unlink_base0_ok }
            rotate_open st fs5 env (ops4 ++ [RotOp.compress])
      else rotate_open st fs3 env ops3

/-- Success oracles for one `file_logger_log` call. -/
structure WriteEnv where
  rot : RotateEnv
  write_ok : Bool

/-- The write-and-flush tail of `file_logger_log`: a failed write warns and
leaves the size unchanged; a flush failure only warns; on success the
written byte count is added to `current_file_size`. -/
def file_logger_write (st : SinkState) (fs : LogFs) (env : WriteEnv) (content : String) :
    SinkState × LogFs × Option String :=
  if env.write_ok = false then (st, fs, none)
  else ({ st with current_file_size := st.current_file_size + content.utf8ByteSize },
        fs, some content)

/-- `file_logger_log` from `file_log.c`: a closed stream makes the call a
no-op; rotation is triggered first when the tracked size exceeds the
maximum, and a failed rotation aborts the call. -/
def file_logger_log (st : SinkState) (fs : LogFs) (env : WriteEnv) (content : String) :
    SinkState × LogFs × Option String :=
  if st.out_stream = false then (st, fs, none)
  else if st.current_file_size > st.max_file_size then
    let r := rotate_logs st fs env.rot
    if r.ok = false then (r.st, r.fs, none)
    else file_logger_write r.st r.fs env content
  else file_logger_write st fs env content

/-! ## Mount/device tracker (the `vfs_monitor` control-file updater)

`diff_sorted_lists` and `update_vfs_unnamed_device` from the mount-tracker
source.  The minors are decimal strings; `g_strcmp0` is byte-wise
`strcmp`, modelled character-wise (the minors are ASCII).  Reading the
previously published set and writing one operation per line are abstracted
into the input lists and the output list: each output element is the
content of exactly one `write_vfs_unnamed_device` call. -/

/-- `strcmp` on character lists: negative, zero or positive. -/
def strcmp_chars : List Char → List Char → Int
  | [], [] => 0
  | [], _ :: _ => -1
  | _ :: _, [] => 1
  | a :: as, b :: bs =>
      if a.toNat < b.toNat then -1
      else if b.toNat < a.toNat then 1
      else strcmp_chars as bs

/-- `g_strcmp0` on strings. -/
def g_strcmp0 (a b : String) : Int :=
  strcmp_chars a.data b.data

/-- The sort order used by `g_list_sort(..., g_strcmp0)`. -/
def strcmp_le (a b : String) : Bool :=
  g_strcmp0 a b ≤ 0

/-- `diff_sorted_lists` from the tracker source, with the two `g_list_prepend`
accumulators made explicit: walking two sorted lists, an element only in
`list1` is prepended to `removed`, one only in `list2` to `added`; the
trailing loops drain whichever list remains. -/
def diff_sorted_lists_aux : List String → List String → List String → List String →
    List String × List String
  | [], l2, added, removed => (l2.reverse ++ added, removed)
  | l1, [], added, removed => (added, l1.reverse ++ removed)
  | x :: t1, y :: t2, added, removed =>
      if g_strcmp0 x y < 0 then diff_sorted_lists_aux t1 (y :: t2) added (x :: removed)
      else if 0 < g_strcmp0 x y then diff_sorted_lists_aux (x :: t1) t2 (y :: added) removed
      else diff_sorted_lists_aux t1 t2 added removed

/-- `diff_sorted_lists(list1, list2, g_strcmp0, &added, &removed)`. -/
def diff_sorted_lists (l1 l2 : List String) : List String × List String :=
  diff_sorted_lists_aux l1 l2 [] []

/-- `update_vfs_unnamed_device` from the tracker source: sort the old and
new minor lists with `g_strcmp0`, diff them, then issue one control-file
write per removal (`r<minor>`) followed by one per addition (`a<minor>`). -/
def update_vfs_writes (olds news : List String) : List String :=
  let olds' := olds.mergeSort strcmp_le
  let news' := news.mergeSort strcmp_le
  let d := diff_sorted_lists olds' news'
  d.2.map (fun s => "r" ++ s) ++ d.1.map (fun s => "a" ++ s)

/-! # Theorems -/

/-! ## CSV escaping and round-trip (C2) -/

theorem rfc4180_run_cons (st : CsvPState) (c : Char) (rest : List Char) :
    rfc4180_run st (c :: rest) =
      match rfc4180_step st c with
      | none => none
      | some st' => rfc4180_run st' rest := rfl

theorem rfc4180_run_cons_some {st st' : CsvPState} {c : Char} (rest : List Char)
    (h : rfc4180_step st c = some st') :
    rfc4180_run st (c :: rest) = rfc4180_run st' rest := by
  rw [rfc4180_run_cons, h]

theorem rfc4180_run_append (st : CsvPState) (a b : List Char) :
    rfc4180_run st (a ++ b) =
      match rfc4180_run st a with
      | none => none
      | some st' => rfc4180_run st' b := by
  induction a generalizing st with
  | nil => simp [rfc4180_run]
  | cons c rest ih =>
      simp only [List.cons_append, rfc4180_run]
      cases rfc4180_step st c with
      | none => rfl
      | some st' => exact ih st'

theorem rfc4180_run_append_some {st st' : CsvPState} {a : List Char} (b : List Char)
    (h : rfc4180_run st a = some st') :
    rfc4180_run st (a ++ b) = rfc4180_run st' b := by
  rw [rfc4180_run_append, h]

theorem run_unquoted (cs : List Char) (h : ∀ c ∈ cs, CharOk c) (fs : List String)
    (cur : List Char) :
    rfc4180_run ⟨fs, cur, .unquoted⟩ cs = some ⟨fs, cur ++ cs, .unquoted⟩ := by
  induction cs generalizing cur with
  | nil => simp [rfc4180_run]
  | cons c rest ih =>
      obtain ⟨h1, h2, h3, h4⟩ := h c (List.mem_cons_self _ _)
      simp only [rfc4180_run, rfc4180_step, h1, h2, h3, h4, if_false]
      rw [ih (fun c hc => h c (List.mem_cons_of_mem _ hc))]
      simp

theorem step_quoted_quote (fs : List String) (cur : List Char) :
    rfc4180_step ⟨fs, cur, .quoted⟩ '"' = some ⟨fs, cur, .quoteEnd⟩ := rfl

theorem step_quoteEnd_quote (fs : List String) (cur : List Char) :
    rfc4180_step ⟨fs, cur, .quoteEnd⟩ '"' = some ⟨fs, cur ++ ['"'], .quoted⟩ := rfl

theorem step_quoted_other (fs : List String) (cur : List Char) (c : Char) (hc : c ≠ '"') :
    rfc4180_step ⟨fs, cur, .quoted⟩ c = some ⟨fs, cur ++ [c], .quoted⟩ := by
  simp [rfc4180_step, hc]

theorem run_quoted_body (ds : List Char) (fs : List String) (cur : List Char) :
    rfc4180_run ⟨fs, cur, .quoted⟩ (csv_escape_body ds ++ ['"']) =
      some ⟨fs, cur ++ ds, .quoteEnd⟩ := by
  induction ds generalizing cur with
  | nil =>
      simp only [csv_escape_body, List.nil_append, rfc4180_run_cons, step_quoted_quote]
      simp [rfc4180_run]
  | cons c rest ih =>
      by_cases hc : c = '"'
      · subst hc
        simp only [csv_escape_body, if_true, ite_true, eq_self_iff_true, List.cons_append,
          rfc4180_run_cons, step_quoted_quote, step_quoteEnd_quote]
        rw [ih]
        simp
      · simp only [csv_escape_body, if_neg hc, List.cons_append, rfc4180_run_cons,
          step_quoted_other fs cur c hc]
        rw [ih]
        simp

theorem charOk_of_no_escape (f : String) (h : needs_csv_escape f = false) :
    ∀ c ∈ f.data, CharOk c := by
  intro c hc
  simp only [needs_csv_escape, List.any_eq_false, decide_eq_true_eq] at h
  have := h c hc
  push_neg at this
  exact ⟨this.1, this.2.1, this.2.2.1, this.2.2.2⟩

theorem run_field (f : String) (fs : List String) :
    rfc4180_run ⟨fs, [], .fieldStart⟩ (csv_field f).data = some (afterField fs f) := by
  by_cases h : needs_csv_escape f
  · have hd : (csv_field f).data = '"' :: (csv_escape_body f.data ++ ['"']) := by
      simp [csv_field, escape_csv_field, h]
    rw [hd, rfc4180_run_cons_some _ (rfl :
      rfc4180_step ⟨fs, [], .fieldStart⟩ '"' = some ⟨fs, [], .quoted⟩)]
    rw [run_quoted_body]
    simp [afterField, h]
  · have hne : needs_csv_escape f = false := by simpa using h
    have hdata : (csv_field f).data = f.data := by
      simp [csv_field, escape_csv_field, hne]
    rw [hdata]
    rcases hd : f.data with _ | ⟨c, rest⟩
    · simp [rfc4180_run, afterField, hne, hd]
    · have hok := charOk_of_no_escape f hne
      rw [hd] at hok
      obtain ⟨h1, h2, h3, h4⟩ := hok c (List.mem_cons_self _ _)
      have hstep : rfc4180_step ⟨fs, [], .fieldStart⟩ c = some ⟨fs, [c], .unquoted⟩ := by
        simp [rfc4180_step, h1, h2, h3, h4]
      rw [rfc4180_run_cons_some rest hstep,
        run_unquoted rest (fun c hc => hok c (List.mem_cons_of_mem _ hc))]
      simp [afterField, hne, hd]

theorem step_afterField_comma (fs : List String) (f : String) :
    rfc4180_step (afterField fs f) ',' = some ⟨fs ++ [f], [], .fieldStart⟩ := by
  unfold afterField
  split
  · rfl
  · split
    · rename_i hNoEsc hEmpty
      have : f = String.mk [] := by
        cases f with
        | mk d => simp only [List.isEmpty_iff] at hEmpty; simp [hEmpty]
      simp [rfc4180_step, this]
    · rfl

theorem step_afterField_newline (fs : List String) (f : String) :
    rfc4180_step (afterField fs f) '\n' = some ⟨fs ++ [f], [], .done⟩ := by
  unfold afterField
  split
  · rfl
  · split
    · rename_i hNoEsc hEmpty
      have : f = String.mk [] := by
        cases f with
        | mk d => simp only [List.isEmpty_iff] at hEmpty; simp [hEmpty]
      simp [rfc4180_step, this]
    · rfl

theorem run_emit_record (l : List String) (hl : l ≠ []) (fs : List String) :
    rfc4180_run ⟨fs, [], .fieldStart⟩ ((csvEmitRecord l).data ++ ['\n']) =
      some ⟨fs ++ l, [], .done⟩ := by
  induction l generalizing fs with
  | nil => exact absurd rfl hl
  | cons f rest ih =>
      cases rest with
      | nil =>
          have hone : csvEmitRecord [f] = csv_field f := rfl
          rw [hone, rfc4180_run_append_some ['\n'] (run_field f fs),
            rfc4180_run_cons_some [] (step_afterField_newline fs f)]
          simp [rfc4180_run]
      | cons g rest2 =>
          have hdata : (csvEmitRecord (f :: g :: rest2)).data =
              (csv_field f).data ++ ',' :: (csvEmitRecord (g :: rest2)).data := by
            rw [show csvEmitRecord (f :: g :: rest2) =
              csv_field f ++ "," ++ csvEmitRecord (g :: rest2) from rfl]
            simp
          rw [hdata, List.append_assoc,
            rfc4180_run_append_some _ (run_field f fs), List.cons_append]
          rw [rfc4180_run_cons_some ((csvEmitRecord (g :: rest2)).data ++ ['\n'])
            (step_afterField_comma fs f)]
          rw [ih (by simp) (fs ++ [f])]
          simp

theorem rfc4180_roundtrip_emit (l : List String) (hl : l ≠ []) :
    rfc4180_parse_record (csvEmitRecord l ++ "\n") = some l := by
  unfold rfc4180_parse_record
  have hdata : (csvEmitRecord l ++ "\n").data = (csvEmitRecord l).data ++ ['\n'] := by simp
  rw [hdata, run_emit_record l hl []]
  rfl

theorem digitChar_plain : ∀ m : Nat, m < 10 → csvPlainChar (Nat.digitChar m) = true := by
  decide

theorem toDigitsCore_plain (fuel n : Nat) (ds : List Char)
    (hds : ∀ c ∈ ds, csvPlainChar c = true) :
    ∀ c ∈ Nat.toDigitsCore 10 fuel n ds, csvPlainChar c = true := by
  induction fuel generalizing n ds with
  | zero => simpa [Nat.toDigitsCore] using hds
  | succ fuel ih =>
      unfold Nat.toDigitsCore
      have hd : csvPlainChar (Nat.digitChar (n % 10)) = true :=
        digitChar_plain _ (Nat.mod_lt _ (by decide))
      have hcons : ∀ c ∈ (Nat.digitChar (n % 10)) :: ds, csvPlainChar c = true := by
        intro c hc
        rcases List.mem_cons.mp hc with h | h
        · subst h; exact hd
        · exact hds c h
      by_cases hz : n / 10 = 0
      · simpa [hz] using hcons
      · simpa [hz] using ih (n / 10) _ hcons

theorem nat_repr_no_escape (n : Nat) : needs_csv_escape (toString n) = false := by
  have h := toDigitsCore_plain (n + 1) n [] (by intro c hc; cases hc)
  show needs_csv_escape (Nat.repr n) = false
  unfold Nat.repr Nat.toDigits
  simp only [needs_csv_escape, List.any_eq_false]
  intro c hc
  have := h c (by simpa [List.asString] using hc)
  simp only [csvPlainChar, decide_not] at this
  simpa using this

theorem int_repr_no_escape (i : Int) : needs_csv_escape (toString i) = false := by
  show needs_csv_escape (Int.repr i) = false
  cases i with
  | ofNat m => exact nat_repr_no_escape m
  | negSucc m =>
      have hm := nat_repr_no_escape (m + 1)
      simp only [Int.repr, needs_csv_escape, List.any_eq_false] at *
      intro c hc
      simp only [String.data_append] at hc
      rcases List.mem_append.mp hc with h | h
      · have : c = '-' := by simpa using h
        subst this
        decide
      · exact hm c h

theorem action_string_no_escape (a : Nat) :
    needs_csv_escape (event_action_to_string a) = false := by
  unfold event_action_to_string
  split_ifs <;> decide

theorem csv_field_of_plain (s : String) (h : needs_csv_escape s = false) :
    csv_field s = s := by
  simp [csv_field, escape_csv_field, h]

theorem csv_escape_body_eq_flatMap (cs : List Char) :
    csv_escape_body cs = cs.flatMap fun c => if c = '"' then ['"', '"'] else [c] := by
  induction cs with
  | nil => rfl
  | cons c rest ih =>
      by_cases hc : c = '"'
      · subst hc; simp [csv_escape_body, ih]
      · simp [csv_escape_body, hc, ih]

theorem format_single_eq_emit (ts : String) (e : FileEvent)
    (hts : needs_csv_escape ts = false) :
    format_single_event_csv ts e =
      csvEmitRecord [ts, e.process_path, toString e.uid, toString e.pid,
        event_action_to_string e.action, e.event_path] ++ "\n" := by
  show ts ++ "," ++ csv_field e.process_path ++ "," ++ toString e.uid ++ ","
    ++ toString e.pid ++ "," ++ event_action_to_string e.action ++ ","
    ++ csv_field e.event_path ++ "\n" = _
  rw [show csvEmitRecord [ts, e.process_path, toString e.uid, toString e.pid,
        event_action_to_string e.action, e.event_path] =
      csv_field ts ++ "," ++ (csv_field e.process_path ++ "," ++ (csv_field (toString e.uid)
        ++ "," ++ (csv_field (toString e.pid) ++ "," ++ (csv_field (event_action_to_string e.action)
        ++ "," ++ csv_field e.event_path)))) from rfl]
  rw [csv_field_of_plain ts hts, csv_field_of_plain _ (nat_repr_no_escape e.uid),
    csv_field_of_plain _ (int_repr_no_escape e.pid),
    csv_field_of_plain _ (action_string_no_escape e.action)]
  simp [String.append_assoc]

/-- **C2.** Field escaping of `escape_csv_field` follows RFC 4180 — a field
containing `,`, `"`, LF or CR is emitted wrapped in double quotes with
every internal double quote doubled, any other field verbatim — and as a
consequence a conformant RFC 4180 parser recovers every field of a
formatted event line byte-for-byte: timestamp, process path, uid, pid,
action name and event path (proved for arbitrary path strings, which
subsumes the printable-byte fields of the claim; the timestamp argument
never contains a special character, stated as the hypothesis). -/
theorem csv_escaping_and_roundtrip (ts : String) (e : FileEvent)
    (hts : needs_csv_escape ts = false) :
    (∀ f : String,
      (needs_csv_escape f = false → csv_field f = f) ∧
      (needs_csv_escape f = true →
        (csv_field f).data =
          '"' :: ((f.data.flatMap fun c => if c = '"' then ['"', '"'] else [c]) ++ ['"']))) ∧
    rfc4180_parse_record (format_single_event_csv ts e) =
      some [ts, e.process_path, toString e.uid, toString e.pid,
        event_action_to_string e.action, e.event_path] := by
  constructor
  · intro f
    refine ⟨csv_field_of_plain f, fun hf => ?_⟩
    rw [← csv_escape_body_eq_flatMap]
    simp [csv_field, escape_csv_field, hf]
  · rw [format_single_eq_emit ts e hts, rfc4180_roundtrip_emit _ (by simp)]

/-- Witness for C2 at scenario S2 of the spec: path `/tmp/a,b"c<LF>`. -/
theorem csv_escaping_and_roundtrip_witness :
    needs_csv_escape "2025-01-01 00:00:00.000" = false ∧
    rfc4180_parse_record (format_single_event_csv "2025-01-01 00:00:00.000"
        ⟨ACT_NEW_FILE, 0, 8, 1, "/tmp/a,b\"c\n", 1000, 42, "/usr/bin/touch"⟩) =
      some ["2025-01-01 00:00:00.000", "/usr/bin/touch", "1000", "42",
        "file-created", "/tmp/a,b\"c\n"] :=
  ⟨by decide,
   (csv_escaping_and_roundtrip "2025-01-01 00:00:00.000"
     ⟨ACT_NEW_FILE, 0, 8, 1, "/tmp/a,b\"c\n", 1000, 42, "/usr/bin/touch"⟩ (by decide)).2⟩

theorem rename_lookup_remove_ne (m : List (Nat × FileEvent)) (k c : Nat) (h : k ≠ c) :
    rename_lookup (rename_remove m k) c = rename_lookup m c := by
  induction m with
  | nil => rfl
  | cons p rest ih =>
      obtain ⟨k', e'⟩ := p
      by_cases hk : k' = k
      · subst hk
        simp [rename_remove, rename_lookup, h, ih]
      · by_cases hc : k' = c
        · subst hc
          simp [rename_remove, rename_lookup, hk]
        · simp [rename_remove, rename_lookup, hk, hc, ih]

theorem rename_lookup_remove_self (m : List (Nat × FileEvent)) (c : Nat) :
    rename_lookup (rename_remove m c) c = none := by
  induction m with
  | nil => rfl
  | cons p rest ih =>
      obtain ⟨k', e'⟩ := p
      by_cases hk : k' = c
      · subst hk; simp [rename_remove, ih]
      · simp [rename_remove, rename_lookup, hk, ih]

theorem wellKeyed_remove (m : List (Nat × FileEvent)) (k : Nat) (h : WellKeyed m) :
    WellKeyed (rename_remove m k) := by
  induction m with
  | nil => intro p hp; cases hp
  | cons p rest ih =>
      obtain ⟨k', e'⟩ := p
      have hrest : WellKeyed rest := fun p hp => h p (List.mem_cons_of_mem _ hp)
      by_cases hk : k' = k
      · subst hk; simpa [rename_remove] using ih hrest
      · intro q hq
        simp only [rename_remove, if_neg hk] at hq
        rcases List.mem_cons.mp hq with h' | h'
        · subst h'; exact h _ (List.mem_cons_self _ _)
        · exact ih hrest q h'

theorem rename_lookup_wellKeyed (m : List (Nat × FileEvent)) (c : Nat) (f : FileEvent)
    (hm : WellKeyed m) (h : rename_lookup m c = some f) : f.cookie = c := by
  induction m with
  | nil => cases h
  | cons p rest ih =>
      obtain ⟨k', e'⟩ := p
      by_cases hk : k' = c
      · subst hk
        simp only [rename_lookup, if_true, eq_self_iff_true, ite_true, Option.some.injEq] at h
        subst h
        exact hm _ (List.mem_cons_self _ _)
      · simp only [rename_lookup, if_neg hk] at h
        exact ih (fun p hp => hm p (List.mem_cons_of_mem _ hp)) h

theorem handle_none_from {pending : List (Nat × FileEvent)} {e : FileEvent}
    (h : rename_lookup pending e.cookie = none) (hf : is_rename_from e.action = true) :
    handle_rename_event pending e = ((e.cookie, e) :: pending, none) := by
  simp [handle_rename_event, h, hf]

theorem handle_none_other {pending : List (Nat × FileEvent)} {e : FileEvent}
    (h : rename_lookup pending e.cookie = none) (hf : is_rename_from e.action = false) :
    handle_rename_event pending e = (pending, none) := by
  simp [handle_rename_event, h, hf]

theorem handle_some_pair {pending : List (Nat × FileEvent)} {e prev : FileEvent}
    (h : rename_lookup pending e.cookie = some prev)
    (hp : is_rename_from prev.action = true) (ht : is_rename_to e.action = true) :
    handle_rename_event pending e =
      (rename_remove pending e.cookie, some (.rename prev e)) := by
  simp [handle_rename_event, h, hp, ht]

theorem handle_some_mismatch {pending : List (Nat × FileEvent)} {e prev : FileEvent}
    (h : rename_lookup pending e.cookie = some prev)
    (hmm : ¬ (is_rename_from prev.action = true ∧ is_rename_to e.action = true)) :
    handle_rename_event pending e = (rename_remove pending e.cookie, none) := by
  rcases Decidable.not_and_iff_or_not.mp hmm with h' | h'
  · simp [handle_rename_event, h, eq_false_of_ne_true h']
  · simp [handle_rename_event, h, eq_false_of_ne_true h']

theorem wellKeyed_insert {pending : List (Nat × FileEvent)} {e : FileEvent}
    (h : WellKeyed pending) : WellKeyed ((e.cookie, e) :: pending) := by
  intro p hp
  rcases List.mem_cons.mp hp with h' | h'
  · subst h'; rfl
  · exact h p h'

theorem worker_trace_cons_skip {e : FileEvent} (rest : List FileEvent)
    (pending : List (Nat × FileEvent))
    (ht : e.action ≠ ACT_TERMINATE) (hv : validate_file_event e = false) :
    worker_thread_trace (e :: rest) pending = worker_thread_trace rest pending := by
  simp [worker_thread_trace, ht, hv]

theorem worker_trace_cons_single {e : FileEvent} (rest : List FileEvent)
    (pending : List (Nat × FileEvent))
    (ht : e.action ≠ ACT_TERMINATE) (hv : validate_file_event e = true)
    (hr : is_rename_action e.action = false) :
    worker_thread_trace (e :: rest) pending =
      .single e :: worker_thread_trace rest pending := by
  simp [worker_thread_trace, ht, hv, hr]

theorem worker_trace_cons_rename {e : FileEvent} (rest : List FileEvent)
    (pending p' : List (Nat × FileEvent)) (em : Option LogEmit)
    (ht : e.action ≠ ACT_TERMINATE) (hv : validate_file_event e = true)
    (hr : is_rename_action e.action = true)
    (hh : handle_rename_event pending e = (p', em)) :
    worker_thread_trace (e :: rest) pending =
      em.toList ++ worker_thread_trace rest p' := by
  cases em with
  | none => simp [worker_thread_trace, ht, hv, hr, hh]
  | some em' => simp [worker_thread_trace, ht, hv, hr, hh]

theorem rename_emits_for_single (c : Nat) (e : FileEvent) (l : List LogEmit) :
    rename_emits_for c (.single e :: l) = rename_emits_for c l := rfl

theorem worker_trace_proj (c : Nat) (q : List FileEvent) :
    ∀ pending : List (Nat × FileEvent),
      (∀ e ∈ q, e.action ≠ ACT_TERMINATE) → WellKeyed pending →
      rename_emits_for c (worker_thread_trace q pending) =
        cookie_pair_run (rename_lookup pending c) (q.filter (rename_filter c)) := by
  induction q with
  | nil =>
      intro pending _ _
      cases h : rename_lookup pending c <;> rfl
  | cons e rest ih =>
      intro pending hterm hwk
      have hterm_rest : ∀ x ∈ rest, x.action ≠ ACT_TERMINATE :=
        fun x hx => hterm x (List.mem_cons_of_mem _ hx)
      have hterm_e : e.action ≠ ACT_TERMINATE := hterm e (List.mem_cons_self _ _)
      by_cases hv : validate_file_event e = true
      · by_cases hr : is_rename_action e.action = true
        · by_cases hc : e.cookie = c
          · subst hc
            have hfilter : (e :: rest).filter (rename_filter e.cookie) =
                e :: rest.filter (rename_filter e.cookie) := by
              simp [List.filter_cons, rename_filter, hv, hr]
            rw [hfilter]
            cases hle : rename_lookup pending e.cookie with
            | none =>
                by_cases hf : is_rename_from e.action = true
                · rw [worker_trace_cons_rename rest pending _ none hterm_e hv hr
                    (handle_none_from hle hf)]
                  rw [show Option.toList (none : Option LogEmit) = [] from rfl,
                    List.nil_append, ih _ hterm_rest (wellKeyed_insert hwk)]
                  rw [show rename_lookup ((e.cookie, e) :: pending) e.cookie = some e from
                    by simp [rename_lookup]]
                  simp [cookie_pair_run, hf]
                · have hf' : is_rename_from e.action = false := by simpa using hf
                  rw [worker_trace_cons_rename rest pending _ none hterm_e hv hr
                    (handle_none_other hle hf')]
                  rw [show Option.toList (none : Option LogEmit) = [] from rfl,
                    List.nil_append, ih _ hterm_rest hwk]
                  simp [cookie_pair_run, hf', hle]
            | some prev =>
                have hprev : prev.cookie = e.cookie :=
                  rename_lookup_wellKeyed _ _ _ hwk hle
                have hwk' : WellKeyed (rename_remove pending e.cookie) :=
                  wellKeyed_remove _ _ hwk
                have hlook' : rename_lookup (rename_remove pending e.cookie) e.cookie = none :=
                  rename_lookup_remove_self _ _
                by_cases hpair : is_rename_from prev.action = true ∧ is_rename_to e.action = true
                · rw [worker_trace_cons_rename rest pending _ (some (.rename prev e))
                    hterm_e hv hr (handle_some_pair hle hpair.1 hpair.2)]
                  rw [show Option.toList (some (LogEmit.rename prev e)) = [.rename prev e]
                    from rfl]
                  rw [List.singleton_append]
                  rw [show rename_emits_for e.cookie
                      (.rename prev e :: worker_thread_trace rest (rename_remove pending e.cookie)) =
                    (prev, e) :: rename_emits_for e.cookie
                      (worker_thread_trace rest (rename_remove pending e.cookie)) from
                    by simp [rename_emits_for, hprev]]
                  rw [ih _ hterm_rest hwk', hlook']
                  simp [cookie_pair_run, hpair.1, hpair.2]
                · rw [worker_trace_cons_rename rest pending _ none hterm_e hv hr
                    (handle_some_mismatch hle hpair)]
                  rw [show Option.toList (none : Option LogEmit) = [] from rfl,
                    List.nil_append, ih _ hterm_rest hwk', hlook']
                  rcases Decidable.not_and_iff_or_not.mp hpair with h' | h' <;>
                    simp [cookie_pair_run, eq_false_of_ne_true h']
          · have hfilter : (e :: rest).filter (rename_filter c) =
                rest.filter (rename_filter c) := by
              simp [List.filter_cons, rename_filter, hc]
            rw [hfilter]
            cases hle : rename_lookup pending e.cookie with
            | none =>
                by_cases hf : is_rename_from e.action = true
                · rw [worker_trace_cons_rename rest pending _ none hterm_e hv hr
                    (handle_none_from hle hf)]
                  rw [show Option.toList (none : Option LogEmit) = [] from rfl,
                    List.nil_append, ih _ hterm_rest (wellKeyed_insert hwk)]
                  rw [show rename_lookup ((e.cookie, e) :: pending) c =
                      rename_lookup pending c from by simp [rename_lookup, hc]]
                · have hf' : is_rename_from e.action = false := by simpa using hf
                  rw [worker_trace_cons_rename rest pending _ none hterm_e hv hr
                    (handle_none_other hle hf')]
                  rw [show Option.toList (none : Option LogEmit) = [] from rfl,
                    List.nil_append, ih _ hterm_rest hwk]
            | some prev =>
                have hprev : prev.cookie = e.cookie :=
                  rename_lookup_wellKeyed _ _ _ hwk hle
                have hwk' : WellKeyed (rename_remove pending e.cookie) :=
                  wellKeyed_remove _ _ hwk
                have hlook' : rename_lookup (rename_remove pending e.cookie) c =
                    rename_lookup pending c := rename_lookup_remove_ne _ _ _ hc
                by_cases hpair : is_rename_from prev.action = true ∧ is_rename_to e.action = true
                · rw [worker_trace_cons_rename rest pending _ (some (.rename prev e))
                    hterm_e hv hr (handle_some_pair hle hpair.1 hpair.2)]
                  rw [show Option.toList (some (LogEmit.rename prev e)) = [.rename prev e]
                    from rfl]
                  rw [List.singleton_append]
                  rw [show rename_emits_for c
                      (.rename prev e :: worker_thread_trace rest (rename_remove pending e.cookie)) =
                    rename_emits_for c
                      (worker_thread_trace rest (rename_remove pending e.cookie)) from
                    by simp [rename_emits_for, hprev, hc]]
                  rw [ih _ hterm_rest hwk', hlook']
                · rw [worker_trace_cons_rename rest pending _ none hterm_e hv hr
                    (handle_some_mismatch hle hpair)]
                  rw [show Option.toList (none : Option LogEmit) = [] from rfl,
                    List.nil_append, ih _ hterm_rest hwk', hlook']
        · have hr' : is_rename_action e.action = false := by simpa using hr
          rw [worker_trace_cons_single rest pending hterm_e hv hr',
            rename_emits_for_single, ih _ hterm_rest hwk]
          have hfilter : (e :: rest).filter (rename_filter c) =
              rest.filter (rename_filter c) := by
            simp [List.filter_cons, rename_filter, hr']
          rw [hfilter]
      · have hv' : validate_file_event e = false := by simpa using hv
        rw [worker_trace_cons_skip rest pending hterm_e hv', ih _ hterm_rest hwk]
        have hfilter : (e :: rest).filter (rename_filter c) =
            rest.filter (rename_filter c) := by
          simp [List.filter_cons, rename_filter, hv']
        rw [hfilter]

theorem is_rename_to_not_from (a : Nat) (h : is_rename_to a = true) :
    is_rename_from a = false := by
  simp only [is_rename_to, ACT_RENAME_TO_FILE, ACT_RENAME_TO_FOLDER,
    decide_eq_true_eq] at h
  rcases h with h | h <;> subst h <;> decide

theorem rename_emits_mem {c : Nat} {tr : List LogEmit} {f t : FileEvent}
    (h : (f, t) ∈ rename_emits_for c tr) : LogEmit.rename f t ∈ tr := by
  induction tr with
  | nil => cases h
  | cons em rest ih =>
      cases em with
      | single e => exact List.mem_cons_of_mem _ (ih h)
      | rename f' t' =>
          by_cases hc : f'.cookie = c
          · rw [show rename_emits_for c (.rename f' t' :: rest) =
                (f', t') :: rename_emits_for c rest from by simp [rename_emits_for, hc]] at h
            rcases List.mem_cons.mp h with h' | h'
            · obtain ⟨h1, h2⟩ := Prod.mk.injEq f t f' t' ▸ h'
              subst h1; subst h2
              exact List.mem_cons_self _ _
            · exact List.mem_cons_of_mem _ (ih h')
          · rw [show rename_emits_for c (.rename f' t' :: rest) =
                rename_emits_for c rest from by simp [rename_emits_for, hc]] at h
            exact List.mem_cons_of_mem _ (ih h)

/-- **C1.** For a cookie `c` whose validated rename events in the processed
queue are exactly one `rename-from-*` followed by one `rename-to-*`,
exactly one combined emission is produced for `c` and its rendered CSV
line (carrying the from-path and the to-path) is in the worker output;
for a lone `rename-to-*` or a lone `rename-from-*` with cookie `c`, zero
combined lines are emitted for `c`. -/
theorem rename_pairing_claim (ts : String) (q : List FileEvent) (c : Nat)
    (hterm : ∀ e ∈ q, e.action ≠ ACT_TERMINATE) :
    (∀ ef et, q.filter (rename_filter c) = [ef, et] →
      is_rename_from ef.action = true → is_rename_to et.action = true →
      rename_emits_for c (worker_thread_trace q []) = [(ef, et)] ∧
      format_rename_event_csv ts ef et ∈ worker_output ts q []) ∧
    (∀ et, q.filter (rename_filter c) = [et] → is_rename_to et.action = true →
      rename_emits_for c (worker_thread_trace q []) = []) ∧
    (∀ ef, q.filter (rename_filter c) = [ef] → is_rename_from ef.action = true →
      rename_emits_for c (worker_thread_trace q []) = []) := by
  have hwk : WellKeyed ([] : List (Nat × FileEvent)) := fun p hp => absurd hp (List.not_mem_nil p)
  have hproj := worker_trace_proj c q [] hterm hwk
  rw [show rename_lookup [] c = none from rfl] at hproj
  refine ⟨?_, ?_, ?_⟩
  · intro ef et hfil hf ht
    have hemits : rename_emits_for c (worker_thread_trace q []) = [(ef, et)] := by
      rw [hproj, hfil]
      simp [cookie_pair_run, hf, ht]
    refine ⟨hemits, ?_⟩
    have hmem : LogEmit.rename ef et ∈ worker_thread_trace q [] :=
      rename_emits_mem (by rw [hemits]; exact List.mem_cons_self _ _)
    exact List.mem_map.mpr ⟨_, hmem, rfl⟩
  · intro et hfil ht
    rw [hproj, hfil]
    simp [cookie_pair_run, is_rename_to_not_from et.action ht]
  · intro ef hfil hf
    rw [hproj, hfil]
    simp [cookie_pair_run, hf]

/-- Witness for C1 at spec scenario S3: `from(cookie 7, /x/old)` then
`to(cookie 7, /x/new)`. -/
theorem rename_pairing_claim_witness :
    rename_emits_for 7 (worker_thread_trace
        [⟨ACT_RENAME_FROM_FILE, 7, 8, 1, "/x/old", 1000, 42, "/bin/mv"⟩,
         ⟨ACT_RENAME_TO_FILE, 7, 8, 1, "/x/new", 1000, 42, "/bin/mv"⟩] []) =
      [(⟨ACT_RENAME_FROM_FILE, 7, 8, 1, "/x/old", 1000, 42, "/bin/mv"⟩,
        ⟨ACT_RENAME_TO_FILE, 7, 8, 1, "/x/new", 1000, 42, "/bin/mv"⟩)] ∧
    format_rename_event_csv "2025-01-01 00:00:00.000"
        ⟨ACT_RENAME_FROM_FILE, 7, 8, 1, "/x/old", 1000, 42, "/bin/mv"⟩
        ⟨ACT_RENAME_TO_FILE, 7, 8, 1, "/x/new", 1000, 42, "/bin/mv"⟩ ∈
      worker_output "2025-01-01 00:00:00.000"
        [⟨ACT_RENAME_FROM_FILE, 7, 8, 1, "/x/old", 1000, 42, "/bin/mv"⟩,
         ⟨ACT_RENAME_TO_FILE, 7, 8, 1, "/x/new", 1000, 42, "/bin/mv"⟩] [] :=
  (rename_pairing_claim "2025-01-01 00:00:00.000"
      [⟨ACT_RENAME_FROM_FILE, 7, 8, 1, "/x/old", 1000, 42, "/bin/mv"⟩,
       ⟨ACT_RENAME_TO_FILE, 7, 8, 1, "/x/new", 1000, 42, "/bin/mv"⟩] 7
      (by decide)).1 _ _ (by decide) (by decide) (by decide)

/-- **C7 (amended).** A dequeued event failing validation (empty
`process_path`, empty `event_path`, or `pid <= 0`) whose action is not the
terminate code is discarded without emitting a CSV line and the worker
continues with the rest of the queue unchanged.  (The action field is not
part of validation; see the counterexample for the invalid-sentinel
action.) -/
theorem invalid_event_discarded_nonfatal (ts : String) (e : FileEvent) (q : List FileEvent)
    (pending : List (Nat × FileEvent)) (hv : validate_file_event e = false)
    (ht : e.action ≠ ACT_TERMINATE) :
    worker_output ts (e :: q) pending = worker_output ts q pending := by
  unfold worker_output
  rw [worker_trace_cons_skip q pending ht hv]

theorem invalid_event_discarded_nonfatal_witness :
    validate_file_event ⟨ACT_NEW_FILE, 0, 8, 1, "", 1000, 42, "/bin/touch"⟩ = false ∧
    worker_output "TS" [⟨ACT_NEW_FILE, 0, 8, 1, "", 1000, 42, "/bin/touch"⟩,
        ⟨ACT_NEW_FILE, 0, 8, 1, "/tmp/y", 1000, 42, "/bin/touch"⟩] [] =
      worker_output "TS" [⟨ACT_NEW_FILE, 0, 8, 1, "/tmp/y", 1000, 42, "/bin/touch"⟩] [] :=
  ⟨by decide,
   invalid_event_discarded_nonfatal "TS" ⟨ACT_NEW_FILE, 0, 8, 1, "", 1000, 42, "/bin/touch"⟩
     [⟨ACT_NEW_FILE, 0, 8, 1, "/tmp/y", 1000, 42, "/bin/touch"⟩] [] (by decide) (by decide)⟩

/-- Counterexample to C7 as stated: an event whose action is the invalid
sentinel (`ACT_INVALID = 100`) but whose other fields are valid is not
"discarded with the worker continuing" — because the invalid sentinel
shares code 100 with the terminate sentinel, the worker stops, and the
following perfectly valid event produces no CSV line (the claim predicts
one line for it). -/
theorem invalid_action_stops_worker :
    worker_output "TS" [⟨ACT_INVALID, 0, 0, 0, "/tmp/x", 0, 5, "/bin/p"⟩,
        ⟨ACT_NEW_FILE, 0, 0, 0, "/tmp/y", 0, 6, "/bin/q"⟩] [] = [] ∧
    validate_file_event ⟨ACT_NEW_FILE, 0, 0, 0, "/tmp/y", 0, 6, "/bin/q"⟩ = true ∧
    (⟨ACT_INVALID, 0, 0, 0, "/tmp/x", 0, 5, "/bin/p"⟩ : FileEvent).process_path ≠ "" ∧
    (⟨ACT_INVALID, 0, 0, 0, "/tmp/x", 0, 5, "/bin/p"⟩ : FileEvent).pid > 0 := by
  refine ⟨rfl, by decide, by decide, by decide⟩

/-- **C10.** `event_logger_log_event` on a non-running logger frees the
event and leaves the whole logger state (queue and rename-pending map)
unchanged, so no CSV line is ever produced for that event: the worker
output over the resulting queue is that of the original queue. -/
theorem log_event_stopped_noop (st : EventLoggerState) (e : FileEvent) (ts : String)
    (h : st.is_running = false) :
    event_logger_log_event st e = st ∧
    worker_output ts (event_logger_log_event st e).event_queue
        (event_logger_log_event st e).rename_events =
      worker_output ts st.event_queue st.rename_events := by
  have heq : event_logger_log_event st e = st := by simp [event_logger_log_event, h]
  exact ⟨heq, by rw [heq]⟩

theorem log_event_stopped_noop_witness :
    event_logger_log_event ⟨false, [], []⟩
        ⟨ACT_NEW_FILE, 0, 8, 1, "/tmp/a", 1000, 42, "/bin/touch"⟩ = ⟨false, [], []⟩ :=
  (log_event_stopped_noop ⟨false, [], []⟩
    ⟨ACT_NEW_FILE, 0, 8, 1, "/tmp/a", 1000, 42, "/bin/touch"⟩ "TS" rfl).1

/-! ## Config clamping (C3) -/

/-- Counterexample to C3 as stated: the configuration value `0` (a valid
`gint` delivered by the configuration source) is cached unchanged — the
code clamps only the upper bound, so the cached `log_file_count` is `0`,
outside the claimed range `[1, 20]` (and likewise `log_file_size` outside
`[1, 100]`). -/
theorem config_clamp_counterexample :
    config_load_log_file_count (some 0) = 0 ∧
    ¬ 1 ≤ config_load_log_file_count (some 0) ∧
    config_load_log_file_size (some 0) = 0 ∧
    config_changed_log_file_count 10 (some 0) = 0 := by
  refine ⟨rfl, by decide, rfl, rfl⟩

/-- **C3 (amended).** Both at initial load and on change notification the
cached values are clamped from above only: `log_file_count ≤ 20` and
`log_file_size ≤ 100` always hold (for the change handler, provided the
previously cached value already satisfied the bound, since a reload error
keeps it), and for every in-range `gint` input other than `0` the cached
value is also at least 1 — input `0` is cached as `0`, so there is no
lower-bound clamping. -/
theorem config_clamp_upper_only (input : Option Int) (current_count current_size : Nat)
    (hcc : current_count ≤ LOG_FILE_COUNT_MAX) (hcs : current_size ≤ LOG_FILE_SIZE_MAX) :
    config_load_log_file_count input ≤ LOG_FILE_COUNT_MAX ∧
    config_load_log_file_size input ≤ LOG_FILE_SIZE_MAX ∧
    config_changed_log_file_count current_count input ≤ LOG_FILE_COUNT_MAX ∧
    config_changed_log_file_size current_size input ≤ LOG_FILE_SIZE_MAX ∧
    (∀ v : Int, input = some v → -(2 ^ 31) ≤ v → v < 2 ^ 31 → v ≠ 0 →
      1 ≤ config_load_log_file_count input ∧ 1 ≤ config_load_log_file_size input) := by
  refine ⟨?_, ?_, ?_, ?_, ?_⟩
  · cases input with
    | none => simpa [config_load_log_file_count] using by decide
    | some v =>
        simp only [config_load_log_file_count]
        split <;> omega
  · cases input with
    | none => simpa [config_load_log_file_size] using by decide
    | some v =>
        simp only [config_load_log_file_size]
        split <;> omega
  · cases input with
    | none => simpa [config_changed_log_file_count] using hcc
    | some v =>
        simp only [config_changed_log_file_count]
        split <;> omega
  · cases input with
    | none => simpa [config_changed_log_file_size] using hcs
    | some v =>
        simp only [config_changed_log_file_size]
        split <;> omega
  · intro v hv h1 h2 hne
    subst hv
    have hg : 1 ≤ gint_to_guint v := by
      unfold gint_to_guint
      omega
    constructor
    · simp only [config_load_log_file_count]
      split <;> [skip; exact hg]
      decide
    · simp only [config_load_log_file_size]
      split <;> [skip; exact hg]
      decide

/-- Witness for the amended C3 at input `-1` with previously cached
defaults: the negative `gint` converts to a huge `guint` and is clamped
to the maximum. -/
theorem config_clamp_upper_only_witness :
    config_load_log_file_count (some (-1)) ≤ LOG_FILE_COUNT_MAX ∧
    1 ≤ config_load_log_file_count (some (-1)) :=
  ⟨(config_clamp_upper_only (some (-1)) 10 50 (by decide) (by decide)).1,
   ((config_clamp_upper_only (some (-1)) 10 50 (by decide) (by decide)).2.2.2.2
     (-1) rfl (by decide) (by decide) (by decide)).1⟩

theorem event_handler_mask_eq (st : EventListenerState) (msg : NlMsg) :
    (event_handler st msg).1.event_mask = st.event_mask := by
  cases msg <;> simp only [event_handler] <;> (repeat' split) <;> rfl

theorem mask_accepts_ne_invalid {mask act : Nat} (h : mask_accepts mask act = true) :
    act ≠ ACT_INVALID := by
  intro hact
  subst hact
  have h0 : ((1 <<< ACT_INVALID) % 2 ^ 32) = 0 := by decide
  unfold mask_accepts at h
  rw [h0] at h
  simp at h

theorem in_flight_step (st : EventListenerState) (msg : NlMsg) :
    in_flight (event_handler st msg).1 =
      match msg with
      | .notify m =>
          match m.act with
          | some a => if mask_accepts st.event_mask a then true else in_flight st
          | none => in_flight st
      | .procInfo m =>
          if m.uid.isSome && m.tgid.isSome && m.path.isSome then false
          else in_flight st
      | .unknown _ => in_flight st := by
  have hgetD : ∀ b : Bool, in_flight { st with event := some (st.event.getD file_event_new) } =
      in_flight st := by
    intro _
    cases hev : st.event with
    | none => simp [in_flight, hev, file_event_new]
    | some e => simp [in_flight, hev]
  cases msg with
  | notify m =>
      cases hact : m.act with
      | none => simpa [event_handler, hact] using hgetD true
      | some a =>
          by_cases hm : mask_accepts st.event_mask a = true
          · have hne : a ≠ ACT_INVALID := mask_accepts_ne_invalid hm
            rcases hck : m.cookie with _ | ck <;> rcases hmj : m.major with _ | mj <;>
              rcases hmn : m.minor with _ | mn <;> rcases hp : m.path with _ | p <;>
              simp [event_handler, hact, hck, hmj, hmn, hp, hm, in_flight, hne]
          · have hm' : mask_accepts st.event_mask a = false := by simpa using hm
            simp only [event_handler, hact, hm', if_false, ite_false, Bool.false_eq_true]
            simpa [hm'] using hgetD true
  | procInfo m =>
      by_cases hif : in_flight st = true
      · obtain ⟨e, hev, hact⟩ : ∃ e, st.event = some e ∧ e.action ≠ ACT_INVALID := by
          cases hev : st.event with
          | none => simp [in_flight, hev] at hif
          | some e =>
              refine ⟨e, rfl, ?_⟩
              simpa [in_flight, hev] using hif
        rcases hu : m.uid with _ | u <;> rcases ht : m.tgid with _ | t <;>
          rcases hp : m.path with _ | p <;>
          simp [event_handler, hev, hact, hu, ht, hp, in_flight, hif]
      · have hif' : in_flight st = false := by simpa using hif
        cases hev : st.event with
        | none =>
            rcases hu : m.uid with _ | u <;> rcases ht : m.tgid with _ | t <;>
              rcases hp : m.path with _ | p <;>
              simp [event_handler, hev, hu, ht, hp, in_flight, file_event_new, hif']
        | some e =>
            have hact : e.action = ACT_INVALID := by
              simpa [in_flight, hev] using hif'
            rcases hu : m.uid with _ | u <;> rcases ht : m.tgid with _ | t <;>
              rcases hp : m.path with _ | p <;>
              simp [event_handler, hev, hact, hu, ht, hp, in_flight, hif']
  | unknown cmd => simpa [event_handler] using hgetD true

theorem pending_iff_aux (mask : Nat) (msgs : List NlMsg) :
    ∀ st : EventListenerState, st.event_mask = mask →
      in_flight (listener_run st (msgs.map ListenerOp.msg)).1 =
        match last_relevant mask msgs with
        | some (.notify _) => true
        | some _ => false
        | none => in_flight st := by
  induction msgs with
  | nil => intro st _; rfl
  | cons m rest ih =>
      intro st hmask
      have hrun : listener_run st ((m :: rest).map ListenerOp.msg) =
          ((listener_run (event_handler st m).1 (rest.map ListenerOp.msg)).1,
            (event_handler st m).2.toList ++
              (listener_run (event_handler st m).1 (rest.map ListenerOp.msg)).2) := rfl
      rw [hrun]
      have hmask' : (event_handler st m).1.event_mask = mask := by
        rw [event_handler_mask_eq, hmask]
      rw [ih _ hmask']
      cases hlr : last_relevant mask rest with
      | some r =>
          rw [show last_relevant mask (m :: rest) = some r from by
            simp [last_relevant, hlr]]
          cases r <;> rfl
      | none =>
          rw [show last_relevant mask (m :: rest) =
              (if msg_relevant mask m then some m else none) from by
            simp [last_relevant, hlr]]
          rw [in_flight_step st m]
          cases m with
          | notify n =>
              cases hact : n.act with
              | none => simp [msg_relevant, hact]
              | some a =>
                  by_cases hm : mask_accepts mask a = true
                  · simp [msg_relevant, hact, hm, hmask]
                  · have hm' : mask_accepts mask a = false := by simpa using hm
                    simp [msg_relevant, hact, hm', hmask]
          | procInfo p =>
              by_cases hc : (p.uid.isSome && p.tgid.isSome && p.path.isSome) = true
              · simp [msg_relevant, hc]
              · have hc' : (p.uid.isSome && p.tgid.isSome && p.path.isSome) = false := by
                  simpa using hc
                simp [msg_relevant, hc']
          | unknown cmd => simp [msg_relevant]

/-- Counterexample to C5 as stated: the mask is tested during NOTIFY
handling, not NOTIFY_PROCESS_INFO handling.  With the mask accepting
`new-file`, a complete NOTIFY is buffered; the mask is then reprogrammed
to 0 (accepting nothing) before the PROCESS_INFO arrives — yet the
completed event is handed to the consumer callback even though its action
bit is not accepted by the mask in force while the PROCESS_INFO half is
handled. -/
theorem mask_at_notify_counterexample :
    (listener_run ⟨1 <<< ACT_NEW_FILE, none⟩
        [.msg (.notify ⟨some ACT_NEW_FILE, some 7, some 8, some 1, some "/tmp/a"⟩),
         .setMask 0,
         .msg (.procInfo ⟨some 1000, some 42, some "/usr/bin/touch"⟩)]).2 =
      [⟨ACT_NEW_FILE, 7, 8, 1, "/tmp/a", 1000, 42, "/usr/bin/touch"⟩] ∧
    (listener_run ⟨1 <<< ACT_NEW_FILE, none⟩
        [.msg (.notify ⟨some ACT_NEW_FILE, some 7, some 8, some 1, some "/tmp/a"⟩),
         .setMask 0,
         .msg (.procInfo ⟨some 1000, some 42, some "/usr/bin/touch"⟩)]).1.event_mask = 0 ∧
    mask_accepts 0 ACT_NEW_FILE = false := by
  exact ⟨rfl, rfl, by decide⟩

/-- **C5 (amended).** The event-mask test on the action bit is performed at
the start of NOTIFY handling, before the partial slot is filled: a NOTIFY
whose action bit is rejected leaves the listener state unchanged apart
from materializing the (not-in-flight) slot and dispatches nothing, so
masked-out events never reach the partial-event stage; the
NOTIFY_PROCESS_INFO handler performs no mask test — every completed event
is handed to the consumer callback whatever the current mask. -/
theorem mask_tested_at_notify (st : EventListenerState) :
    (∀ m : NotifyMsg, ∀ act, m.act = some act →
      mask_accepts st.event_mask act = false →
      (event_handler st (.notify m)).2 = none ∧
      (event_handler st (.notify m)).1 =
        { st with event := some (st.event.getD file_event_new) }) ∧
    (∀ uid : Nat, ∀ tgid : Int, ∀ p : String, in_flight st = true →
      (event_handler st (.procInfo ⟨some uid, some tgid, some p⟩)).2 =
        some { st.event.getD file_event_new with
          uid := uid, pid := tgid, process_path := p } ∧
      (event_handler st (.procInfo ⟨some uid, some tgid, some p⟩)).1 =
        { st with event := none }) := by
  constructor
  · intro m act hact hm
    constructor <;> simp [event_handler, hact, hm]
  · intro uid tgid p hif
    obtain ⟨e, hev, hact⟩ : ∃ e, st.event = some e ∧ e.action ≠ ACT_INVALID := by
      cases hev : st.event with
      | none => simp [in_flight, hev] at hif
      | some e =>
          refine ⟨e, rfl, ?_⟩
          simpa [in_flight, hev] using hif
    constructor <;> simp [event_handler, hev, hact]

/-- Witness for the amended C5: a masked-out NOTIFY dispatches nothing, and
a PROCESS_INFO completing an in-flight partial dispatches even under mask
0. -/
theorem mask_tested_at_notify_witness :
    (event_handler ⟨0, none⟩
        (.notify ⟨some ACT_NEW_FILE, some 7, some 8, some 1, some "/tmp/a"⟩)).2 = none ∧
    (event_handler ⟨0, some ⟨ACT_NEW_FILE, 7, 8, 1, "/tmp/a", 0, 0, ""⟩⟩
        (.procInfo ⟨some 1000, some 42, some "/usr/bin/touch"⟩)).2 =
      some ⟨ACT_NEW_FILE, 7, 8, 1, "/tmp/a", 1000, 42, "/usr/bin/touch"⟩ :=
  ⟨((mask_tested_at_notify ⟨0, none⟩).1
      ⟨some ACT_NEW_FILE, some 7, some 8, some 1, some "/tmp/a"⟩
      ACT_NEW_FILE rfl (by decide)).1,
   ((mask_tested_at_notify ⟨0, some ⟨ACT_NEW_FILE, 7, 8, 1, "/tmp/a", 0, 0, ""⟩⟩).2
      1000 42 "/usr/bin/touch" (by decide)).1⟩

/-- Counterexample to C6 as stated: with a mask that rejects `new-file`,
a NOTIFY half is seen with no PROCESS_INFO after it — the claimed "iff"
says a partial must exist — yet no partially built event is in flight,
because masked-out NOTIFYs never create a partial. -/
theorem partial_iff_counterexample :
    last_half_is_notify
        [.notify ⟨some ACT_NEW_FILE, some 7, some 8, some 1, some "/tmp/a"⟩] = true ∧
    in_flight (listener_run ⟨0, none⟩
        [.msg (.notify ⟨some ACT_NEW_FILE, some 7, some 8, some 1, some "/tmp/a"⟩)]).1
      = false := ⟨rfl, rfl⟩

/-- **C6 (amended).** Starting from an empty slot, a partial event is in
flight after a message sequence iff the most recent protocol-relevant
message (a mask-accepted NOTIFY carrying its action attribute, or a
PROCESS_INFO carrying all three required attributes) is such a NOTIFY; at
most one partial exists at any time (the listener has a single slot, an
`Option` here); a second mask-accepted complete NOTIFY while a partial is
in flight dispatches nothing and refills the slot's NOTIFY fields from
the new message, dropping the previous partial; and a PROCESS_INFO
arriving with no partial in flight is discarded. -/
theorem partial_slot_protocol (mask : Nat) (msgs : List NlMsg) :
    (in_flight (listener_run ⟨mask, none⟩ (msgs.map ListenerOp.msg)).1 =
      pending_spec mask msgs) ∧
    (∀ st : EventListenerState, ∀ act ck mj mn : Nat, ∀ p : String,
      in_flight st = true → mask_accepts st.event_mask act = true →
      (event_handler st (.notify ⟨some act, some ck, some mj, some mn, some p⟩)).2 = none ∧
      (event_handler st (.notify ⟨some act, some ck, some mj, some mn, some p⟩)).1.event =
        some { st.event.getD file_event_new with
          action := act, cookie := ck, major := mj, minor := mn, event_path := p }) ∧
    (∀ st : EventListenerState, ∀ m : ProcInfoMsg, in_flight st = false →
      (event_handler st (.procInfo m)).2 = none ∧
      in_flight (event_handler st (.procInfo m)).1 = false) := by
  refine ⟨?_, ?_, ?_⟩
  · rw [pending_iff_aux mask msgs ⟨mask, none⟩ rfl]
    unfold pending_spec
    cases hlr : last_relevant mask msgs with
    | none => simp [in_flight]
    | some r => cases r <;> rfl
  · intro st act ck mj mn p hif hm
    constructor <;> simp [event_handler, hm]
  · intro st m hif
    have h := in_flight_step st (.procInfo m)
    constructor
    · cases hev : st.event with
      | none => simp [event_handler, hev, file_event_new]
      | some e =>
          have hact : e.action = ACT_INVALID := by
            simpa [in_flight, hev] using hif
          simp [event_handler, hev, hact]
    · rw [h]
      show (if (m.uid.isSome && m.tgid.isSome && m.path.isSome) = true then false
            else in_flight st) = false
      split <;> simp [hif]

/-- Witness for the amended C6: after one accepted complete NOTIFY a
partial is in flight; after its PROCESS_INFO none is; a PROCESS_INFO with
no partial dispatches nothing. -/
theorem partial_slot_protocol_witness :
    in_flight (listener_run ⟨1, none⟩
        [.msg (.notify ⟨some ACT_NEW_FILE, some 7, some 8, some 1, some "/tmp/a"⟩)]).1 =
      pending_spec 1 [.notify ⟨some ACT_NEW_FILE, some 7, some 8, some 1, some "/tmp/a"⟩] ∧
    (event_handler ⟨1, none⟩ (.procInfo ⟨some 1000, some 42, some "/bin/sh"⟩)).2 = none :=
  ⟨(partial_slot_protocol 1
      [.notify ⟨some ACT_NEW_FILE, some 7, some 8, some 1, some "/tmp/a"⟩]).1,
   ((partial_slot_protocol 1 []).2.2 ⟨1, none⟩ ⟨some 1000, some 42, some "/bin/sh"⟩ rfl).1⟩

theorem rotate_stream_eq_ok (st : SinkState) (fs : LogFs) (env : RotateEnv) :
    (rotate_logs st fs env).st.out_stream = (rotate_logs st fs env).ok := by
  unfold rotate_logs rotate_open
  dsimp only
  (repeat' split) <;> rfl

theorem scan_ops_stale (env : RotateEnv) :
    ∀ (fuel : Nat) (i : Nat) (fs : LogFs),
      ∀ op ∈ (rotate_scan_stale env fs i fuel).2, ∃ j, op = RotOp.unlink_stale j := by
  intro fuel
  induction fuel with
  | zero => intro i fs op hop; simp [rotate_scan_stale] at hop
  | succ fuel ih =>
      intro i fs op hop
      by_cases hg : fs.gz i = true
      · simp only [rotate_scan_stale, hg, if_true] at hop
        rcases List.mem_cons.mp hop with h | h
        · exact ⟨i, h⟩
        · exact ih _ _ op h
      · simp only [rotate_scan_stale, Bool.not_eq_true] at hg
        simp [rotate_scan_stale, hg] at hop

theorem shift_ops_rename (env : RotateEnv) :
    ∀ (idxs : List Nat) (fs : LogFs),
      ∀ op ∈ (rotate_shift env fs idxs).2.2, ∃ j, op = RotOp.rename_archive j := by
  intro idxs
  induction idxs with
  | nil => intro fs op hop; simp [rotate_shift] at hop
  | cons i rest ih =>
      intro fs op hop
      by_cases hg : fs.gz i = true
      · by_cases hr : env.rename_gz_ok i = true
        · simp only [rotate_shift, hg, hr, if_true] at hop
          rcases List.mem_cons.mp hop with h | h
          · exact ⟨i, h⟩
          · exact ih _ op h
        · have hr' : env.rename_gz_ok i = false := by simpa using hr
          simp only [rotate_shift, hg, hr', if_true, if_false, Bool.false_eq_true,
            List.mem_singleton] at hop
          exact ⟨i, hop⟩
      · have hg' : fs.gz i = false := by simpa using hg
        simp only [rotate_shift, hg', Bool.false_eq_true, if_false] at hop
        exact ih _ op hop

/-- **C4.** If any aborting sub-step of log rotation fails (oldest-archive
unlink, intermediate-archive rename, live-file rename, compression, or
reopening the live stream), the rotation returns failure with the output
stream closed — it is not reopened — and every subsequent
`file_logger_log` call on the resulting sink is a no-op: it writes
nothing and leaves the sink state and the file system unchanged. -/
theorem rotation_failure_halts (st : SinkState) (fs : LogFs) (env : RotateEnv)
    (h : (rotate_logs st fs env).ok = false) :
    (rotate_logs st fs env).st.out_stream = false ∧
    ∀ (wenv : WriteEnv) (content : String),
      file_logger_log (rotate_logs st fs env).st (rotate_logs st fs env).fs wenv content =
        ((rotate_logs st fs env).st, (rotate_logs st fs env).fs, none) := by
  have hclosed : (rotate_logs st fs env).st.out_stream = false := by
    rw [rotate_stream_eq_ok, h]
  exact ⟨hclosed, fun wenv content => by simp [file_logger_log, hclosed]⟩

/-- Witness for C4: a failing live-file rename aborts the rotation and the
subsequent write is a no-op. -/
theorem rotation_failure_halts_witness :
    (rotate_logs ⟨true, 200, 100, 3⟩ ⟨fun _ => false, true, false⟩
        ⟨fun _ => true, fun _ => true, false, true, true, true⟩).ok = false ∧
    (rotate_logs ⟨true, 200, 100, 3⟩ ⟨fun _ => false, true, false⟩
        ⟨fun _ => true, fun _ => true, false, true, true, true⟩).st.out_stream = false :=
  ⟨rfl,
   (rotation_failure_halts ⟨true, 200, 100, 3⟩ ⟨fun _ => false, true, false⟩
      ⟨fun _ => true, fun _ => true, false, true, true, true⟩ rfl).1⟩

/-- Counterexample to C8 as stated: with `max_file_count = 3` and the only
on-disk archive being `base.5.gz` (index `5 ≥ 3`), a fully successful
rotation leaves `base.5.gz` on disk: the hygiene scan stops at the first
missing index (`base.3.gz` does not exist), so it does not unlink every
archive with index `≥ max_file_count`. -/
theorem stale_scan_counterexample :
    (rotate_logs ⟨true, 200, 100, 3⟩ ⟨fun i => i = 5, true, false⟩
        ⟨fun _ => true, fun _ => true, true, true, true, true⟩).ok = true ∧
    (rotate_logs ⟨true, 200, 100, 3⟩ ⟨fun i => i = 5, true, false⟩
        ⟨fun _ => true, fun _ => true, true, true, true, true⟩).fs.gz 5 = true := by
  exact ⟨rfl, by decide⟩

theorem scan_consecutive (env : RotateEnv) (hok : ∀ i, env.unlink_gz_ok i = true) :
    ∀ (n : Nat) (fuel k : Nat) (fs : LogFs), n ≤ fuel →
      (∀ j, k ≤ j → j < k + n → fs.gz j = true) → fs.gz (k + n) = false →
      (rotate_scan_stale env fs k fuel).2 =
        (List.range n).map (fun t => RotOp.unlink_stale (k + t)) ∧
      ∀ i, (rotate_scan_stale env fs k fuel).1.gz i =
        if k ≤ i ∧ i < k + n then false else fs.gz i := by
  intro n
  induction n with
  | zero =>
      intro fuel k fs _ _ hstop
      cases fuel with
      | zero =>
          refine ⟨rfl, fun i => ?_⟩
          have hni : ¬ (k ≤ i ∧ i < k + 0) := by omega
          simp only [rotate_scan_stale]
          rw [if_neg hni]
      | succ fuel =>
          simp only [Nat.add_zero] at hstop
          refine ⟨by simp [rotate_scan_stale, hstop], fun i => ?_⟩
          simp only [rotate_scan_stale, hstop, Bool.false_eq_true, if_false]
          have hni : ¬ (k ≤ i ∧ i < k + 0) := by omega
          rw [if_neg hni]
  | succ n ih =>
      intro fuel k fs hle hcons hstop
      obtain ⟨f, rfl⟩ : ∃ f, fuel = f + 1 := ⟨fuel - 1, by omega⟩
      have hk : fs.gz k = true := hcons k (le_refl k) (by omega)
      have hfs' : fs_set_gz fs k false = { fs with gz := fun j => if j = k then false else fs.gz j } := rfl
      have hrec := ih f (k + 1) (fs_set_gz fs k false) (by omega)
        (fun j hj1 hj2 => by
          have hne : j ≠ k := by omega
          simp only [fs_set_gz, hne, if_false]
          exact hcons j (by omega) (by omega))
        (by
          have hne : k + 1 + n ≠ k := by omega
          simp only [fs_set_gz, hne, if_false]
          have : k + 1 + n = k + (n + 1) := by omega
          rw [this]
          exact hstop)
      constructor
      · simp only [rotate_scan_stale, hk, if_true, hok k]
        rw [hrec.1]
        rw [List.range_succ_eq_map]
        simp only [List.map_cons, List.map_map, Nat.add_zero]
        congr 1
        apply List.map_congr_left
        intro t _
        simp only [Function.comp_apply]
        congr 1
        omega
      · intro i
        simp only [rotate_scan_stale, hk, if_true, hok k]
        rw [hrec.2 i]
        by_cases hik : i = k
        · subst hik
          have h1 : ¬ (i + 1 ≤ i ∧ i < i + 1 + n) := by omega
          have h2 : i ≤ i ∧ i < i + (n + 1) := by omega
          simp [h1, h2, fs_set_gz]
        · by_cases hin : k + 1 ≤ i ∧ i < k + 1 + n
          · have h2 : k ≤ i ∧ i < k + (n + 1) := by omega
            simp [hin, h2]
          · have h2 : ¬ (k ≤ i ∧ i < k + (n + 1)) := by omega
            simp [hin, h2, fs_set_gz, hik]

def no_stale (l : List RotOp) : Bool :=
  l.all fun op =>
    match op with
    | RotOp.unlink_stale _ => false
    | _ => true

theorem no_stale_not_mem {l : List RotOp} (h : no_stale l = true) :
    ∀ i, RotOp.unlink_stale i ∉ l := by
  intro i hmem
  have := List.all_eq_true.mp h _ hmem
  simp at this

theorem no_stale_append (a b : List RotOp) :
    no_stale (a ++ b) = (no_stale a && no_stale b) := List.all_append ..

theorem no_stale_nil : no_stale [] = true := rfl

theorem no_stale_cons_oldest (l : List RotOp) :
    no_stale (RotOp.unlink_oldest :: l) = no_stale l := rfl
theorem no_stale_cons_rename_live (l : List RotOp) :
    no_stale (RotOp.rename_live :: l) = no_stale l := rfl
theorem no_stale_cons_compress (l : List RotOp) :
    no_stale (RotOp.compress :: l) = no_stale l := rfl
theorem no_stale_cons_open (l : List RotOp) :
    no_stale (RotOp.open_live :: l) = no_stale l := rfl
theorem no_stale_cons_rename_archive (i : Nat) (l : List RotOp) :
    no_stale (RotOp.rename_archive i :: l) = no_stale l := rfl
theorem no_stale_oldest : no_stale [RotOp.unlink_oldest] = true := rfl
theorem no_stale_rename_live : no_stale [RotOp.rename_live] = true := rfl
theorem no_stale_compress : no_stale [RotOp.compress] = true := rfl
theorem no_stale_open : no_stale [RotOp.open_live] = true := rfl

theorem no_stale_shift (env : RotateEnv) :
    ∀ (idxs : List Nat) (fs : LogFs), no_stale (rotate_shift env fs idxs).2.2 = true := by
  intro idxs
  induction idxs with
  | nil => intro fs; rfl
  | cons i rest ih =>
      intro fs
      by_cases hg : fs.gz i = true
      · by_cases hr : env.rename_gz_ok i = true
        · simp only [rotate_shift, hg, hr, if_true]
          simpa [no_stale] using ih _
        · have hr' : env.rename_gz_ok i = false := by simpa using hr
          simp [rotate_shift, hg, hr', no_stale]
      · have hg' : fs.gz i = false := by simpa using hg
        simp only [rotate_shift, hg', Bool.false_eq_true, if_false]
        exact ih _

theorem rotate_ops_scan_first (st : SinkState) (fs : LogFs) (env : RotateEnv) :
    ∃ rest, (rotate_logs st fs env).ops =
      (rotate_scan_stale env fs st.max_file_count (100 - st.max_file_count)).2 ++ rest ∧
      ∀ i, RotOp.unlink_stale i ∉ rest := by
  unfold rotate_logs rotate_open
  dsimp only
  (repeat' split)
  all_goals
    exact ⟨_, by (repeat rw [List.append_assoc]); (try rfl),
      no_stale_not_mem (by
        simp [no_stale_append, no_stale_shift, no_stale_nil, no_stale_oldest,
          no_stale_rename_live, no_stale_compress, no_stale_open, no_stale_cons_oldest,
          no_stale_cons_rename_live, no_stale_cons_compress, no_stale_cons_open,
          no_stale_cons_rename_archive])⟩

/-- **C8 (amended).** The stale-archive hygiene pass is the first step of
`rotate_logs`, performed right after closing the live stream and before
the oldest-archive delete, the archive shifts, the live-file rename,
compression and reopen: the operation trace begins with the scan's
unlinks and no stale-unlink occurs later.  The scan itself, with
succeeding unlinks, deletes exactly the consecutive run of existing
`base.i.gz` starting at `i = max_file_count` and stops at the first
missing index (scanning at most up to index 100); archives beyond a gap
survive. -/
theorem stale_scan_first_and_consecutive (st : SinkState) (fs : LogFs) (env : RotateEnv)
    (hok : ∀ i, env.unlink_gz_ok i = true) (n : Nat)
    (hn : n ≤ 100 - st.max_file_count)
    (hcons : ∀ j, st.max_file_count ≤ j → j < st.max_file_count + n → fs.gz j = true)
    (hstop : fs.gz (st.max_file_count + n) = false) :
    (∃ rest, (rotate_logs st fs env).ops =
      (rotate_scan_stale env fs st.max_file_count (100 - st.max_file_count)).2 ++ rest ∧
      ∀ i, RotOp.unlink_stale i ∉ rest) ∧
    (rotate_scan_stale env fs st.max_file_count (100 - st.max_file_count)).2 =
      (List.range n).map (fun t => RotOp.unlink_stale (st.max_file_count + t)) ∧
    (∀ i, (rotate_scan_stale env fs st.max_file_count (100 - st.max_file_count)).1.gz i =
      if st.max_file_count ≤ i ∧ i < st.max_file_count + n then false else fs.gz i) :=
  ⟨rotate_ops_scan_first st fs env,
   (scan_consecutive env hok n (100 - st.max_file_count) st.max_file_count fs hn hcons hstop).1,
   (scan_consecutive env hok n (100 - st.max_file_count) st.max_file_count fs hn hcons hstop).2⟩

/-- Witness for the amended C8: `max_file_count = 3` with `base.3.gz` and
`base.4.gz` on disk and `base.5.gz` absent — the scan unlinks exactly
indices 3 and 4. -/
theorem stale_scan_first_and_consecutive_witness :
    (rotate_scan_stale ⟨fun _ => true, fun _ => true, true, true, true, true⟩
        ⟨fun i => i == 3 || i == 4, true, false⟩ 3 97).2 =
      (List.range 2).map (fun t => RotOp.unlink_stale (3 + t)) :=
  (stale_scan_first_and_consecutive ⟨true, 200, 100, 3⟩
      ⟨fun i => i == 3 || i == 4, true, false⟩
      ⟨fun _ => true, fun _ => true, true, true, true, true⟩
      (fun _ => rfl) 2 (by decide)
      (fun j h1 h2 => by interval_cases j <;> rfl)
      (by decide)).2.1

def strcmp_lt (a b : String) : Prop := g_strcmp0 a b < 0

theorem char_toNat_inj {c d : Char} (h : c.toNat = d.toNat) : c = d := by
  rw [← Char.ofNat_toNat c, ← Char.ofNat_toNat d, h]

theorem strcmp_chars_self (u : List Char) : strcmp_chars u u = 0 := by
  induction u with
  | nil => rfl
  | cons c rest ih => simp [strcmp_chars, ih]

theorem strcmp_chars_eq_zero {u v : List Char} (h : strcmp_chars u v = 0) : u = v := by
  induction u generalizing v with
  | nil =>
      cases v with
      | nil => rfl
      | cons d ds => simp [strcmp_chars] at h
  | cons c cs ih =>
      cases v with
      | nil => simp [strcmp_chars] at h
      | cons d ds =>
          by_cases h1 : c.toNat < d.toNat
          · simp [strcmp_chars, h1] at h
          · by_cases h2 : d.toNat < c.toNat
            · simp [strcmp_chars, h1, h2] at h
            · have hcd : c = d := char_toNat_inj (by omega)
              simp only [strcmp_chars, if_neg h1, if_neg h2] at h
              rw [hcd, ih h]

theorem strcmp_chars_lt_trans {u v w : List Char}
    (h1 : strcmp_chars u v < 0) (h2 : strcmp_chars v w < 0) : strcmp_chars u w < 0 := by
  induction u generalizing v w with
  | nil =>
      cases v with
      | nil => simp [strcmp_chars] at h1
      | cons b bs =>
          cases w with
          | nil => simp [strcmp_chars] at h2
          | cons c cs => simp [strcmp_chars]
  | cons a as ih =>
      cases v with
      | nil => simp [strcmp_chars] at h1
      | cons b bs =>
          cases w with
          | nil => simp [strcmp_chars] at h2
          | cons c cs =>
              by_cases hab : a.toNat < b.toNat
              · by_cases hbc : b.toNat < c.toNat
                · simp [strcmp_chars, show a.toNat < c.toNat from by omega]
                · by_cases hcb : c.toNat < b.toNat
                  · simp [strcmp_chars, hbc, hcb] at h2
                  · have : b = c := char_toNat_inj (by omega)
                    subst this
                    simp [strcmp_chars, hab]
              · by_cases hba : b.toNat < a.toNat
                · simp [strcmp_chars, hab, hba] at h1
                · have : a = b := char_toNat_inj (by omega)
                  subst this
                  simp only [strcmp_chars, if_neg hab, if_neg hba] at h1
                  by_cases hbc : a.toNat < c.toNat
                  · simp [strcmp_chars, hbc]
                  · by_cases hcb : c.toNat < a.toNat
                    · simp [strcmp_chars, hbc, hcb] at h2
                    · have : a = c := char_toNat_inj (by omega)
                      subst this
                      simp only [strcmp_chars, if_neg hbc, if_neg hcb] at h2 ⊢
                      exact ih h1 h2

theorem strcmp_chars_neg {u v : List Char} (h : ¬ strcmp_chars u v < 0)
    (hne : strcmp_chars u v ≠ 0) : strcmp_chars v u < 0 := by
  induction u generalizing v with
  | nil =>
      cases v with
      | nil => simp [strcmp_chars] at hne
      | cons d ds => simp [strcmp_chars] at h
  | cons c cs ih =>
      cases v with
      | nil => simp [strcmp_chars]
      | cons d ds =>
          by_cases h1 : c.toNat < d.toNat
          · simp [strcmp_chars, h1] at h
          · by_cases h2 : d.toNat < c.toNat
            · simp [strcmp_chars, h2]
            · have hcd : c = d := char_toNat_inj (by omega)
              subst hcd
              simp only [strcmp_chars, if_neg h1, if_neg h2] at h hne ⊢
              exact ih h hne

theorem g_strcmp0_eq_zero {a b : String} (h : g_strcmp0 a b = 0) : a = b := by
  have hd := strcmp_chars_eq_zero h
  cases a; cases b
  exact congrArg String.mk (by simpa using hd)

theorem strcmp_lt_trans {a b c : String} (h1 : strcmp_lt a b) (h2 : strcmp_lt b c) :
    strcmp_lt a c := strcmp_chars_lt_trans h1 h2

theorem strcmp_lt_irrefl (a : String) : ¬ strcmp_lt a a := by
  simp [strcmp_lt, g_strcmp0, strcmp_chars_self]

theorem strcmp_le_total (a b : String) : (strcmp_le a b || strcmp_le b a) = true := by
  by_cases h : g_strcmp0 a b ≤ 0
  · simp [strcmp_le, h]
  · have hgt : 0 < strcmp_chars a.data b.data := by
      simpa [g_strcmp0, not_le] using h
    have hlt : strcmp_chars b.data a.data < 0 :=
      strcmp_chars_neg (by omega) (by omega)
    simp only [strcmp_le, g_strcmp0, Bool.or_eq_true, decide_eq_true_eq]
    omega

theorem strcmp_le_trans (a b c : String) (h1 : strcmp_le a b = true)
    (h2 : strcmp_le b c = true) : strcmp_le a c = true := by
  simp only [strcmp_le, decide_eq_true_eq] at h1 h2 ⊢
  rcases lt_or_eq_of_le h1 with h1' | h1'
  · rcases lt_or_eq_of_le h2 with h2' | h2'
    · exact le_of_lt (strcmp_chars_lt_trans h1' h2')
    · have : b = c := g_strcmp0_eq_zero h2'
      subst this
      exact h1
  · have : a = b := g_strcmp0_eq_zero h1'
    subst this
    exact h2

theorem strcmp_lt_of_le_ne {a b : String} (hle : strcmp_le a b = true) (hne : a ≠ b) :
    strcmp_lt a b := by
  simp only [strcmp_le, decide_eq_true_eq] at hle
  rcases lt_or_eq_of_le hle with h | h
  · exact h
  · exact absurd (g_strcmp0_eq_zero h) hne

theorem pairwise_lt_mergeSort (l : List String) (h : l.Nodup) :
    List.Pairwise strcmp_lt (l.mergeSort strcmp_le) := by
  have hsorted : List.Pairwise (fun a b => strcmp_le a b = true) (l.mergeSort strcmp_le) :=
    List.sorted_mergeSort strcmp_le_trans strcmp_le_total l
  have hnodup : (l.mergeSort strcmp_le).Nodup :=
    ((List.mergeSort_perm l strcmp_le).nodup_iff).mpr h
  have := hsorted.and hnodup
  exact this.imp fun hc => strcmp_lt_of_le_ne hc.1 hc.2

theorem mem_mergeSort {a : String} {l : List String} :
    a ∈ l.mergeSort strcmp_le ↔ a ∈ l :=
  (List.mergeSort_perm l strcmp_le).mem_iff

theorem head_not_mem_of_lt_all {x : String} {l : List String}
    (h : ∀ z ∈ l, strcmp_lt x z) : x ∉ l := by
  intro hmem
  exact strcmp_lt_irrefl x (h x hmem)

theorem diff_aux_spec :
    ∀ (l1 l2 a r : List String), List.Pairwise strcmp_lt l1 → List.Pairwise strcmp_lt l2 →
      (∀ m, m ∈ (diff_sorted_lists_aux l1 l2 a r).1 ↔ m ∈ a ∨ (m ∈ l2 ∧ m ∉ l1)) ∧
      (∀ m, m ∈ (diff_sorted_lists_aux l1 l2 a r).2 ↔ m ∈ r ∨ (m ∈ l1 ∧ m ∉ l2)) := by
  intro l1 l2 a r
  induction l1, l2, a, r using diff_sorted_lists_aux.induct with
  | case1 l2 a r =>
      intro _ _
      constructor
      · intro m
        simp only [diff_sorted_lists_aux, List.mem_append, List.mem_reverse,
          List.not_mem_nil, not_false_iff, and_true]
        tauto
      · intro m
        simp [diff_sorted_lists_aux]
  | case2 l1 a r hne =>
      intro _ _
      rcases l1 with _ | ⟨x, t1⟩
      · exact absurd rfl hne
      · constructor
        · intro m
          simp [diff_sorted_lists_aux]
        · intro m
          simp only [diff_sorted_lists_aux, List.mem_append, List.mem_reverse,
            List.mem_cons, List.not_mem_nil, not_false_iff, and_true]
          tauto
  | case3 x t1 y t2 a r hxy ih =>
      intro h1 h2
      obtain ⟨hx_all, h1t⟩ := List.pairwise_cons.mp h1
      obtain ⟨hy_all, h2t⟩ := List.pairwise_cons.mp h2
      have hx_not2 : x ∉ y :: t2 := by
        intro hmem
        rcases List.mem_cons.mp hmem with h | h
        · subst h; exact strcmp_lt_irrefl x hxy
        · exact strcmp_lt_irrefl x (strcmp_lt_trans hxy (hy_all _ h))
      obtain ⟨iha, ihr⟩ := ih h1t h2
      rw [show diff_sorted_lists_aux (x :: t1) (y :: t2) a r =
          diff_sorted_lists_aux t1 (y :: t2) a (x :: r) from by
        simp [diff_sorted_lists_aux, hxy]]
      constructor
      · intro m
        rw [iha m]
        constructor
        · rintro (ha | ⟨h2m, h1m⟩)
          · exact Or.inl ha
          · refine Or.inr ⟨h2m, ?_⟩
            intro hmem
            rcases List.mem_cons.mp hmem with h | h
            · subst h; exact hx_not2 h2m
            · exact h1m h
        · rintro (ha | ⟨h2m, h1m⟩)
          · exact Or.inl ha
          · exact Or.inr ⟨h2m, fun h => h1m (List.mem_cons_of_mem _ h)⟩
      · intro m
        rw [ihr m]
        constructor
        · rintro (hr | ⟨h1m, h2m⟩)
          · rcases List.mem_cons.mp hr with h | h
            · subst h; exact Or.inr ⟨List.mem_cons_self _ _, hx_not2⟩
            · exact Or.inl h
          · exact Or.inr ⟨List.mem_cons_of_mem _ h1m, h2m⟩
        · rintro (hr | ⟨h1m, h2m⟩)
          · exact Or.inl (List.mem_cons_of_mem _ hr)
          · rcases List.mem_cons.mp h1m with h | h
            · subst h; exact Or.inl (List.mem_cons_self _ _)
            · exact Or.inr ⟨h, h2m⟩
  | case4 x t1 y t2 a r hxy1 hxy2 ih =>
      intro h1 h2
      obtain ⟨hx_all, h1t⟩ := List.pairwise_cons.mp h1
      obtain ⟨hy_all, h2t⟩ := List.pairwise_cons.mp h2
      have hyx : strcmp_lt y x := by
        have : g_strcmp0 y x < 0 := by
          have h0 : strcmp_chars y.data x.data < 0 :=
            strcmp_chars_neg (by simpa [g_strcmp0] using hxy1) (by
              intro h0
              have := strcmp_chars_eq_zero h0
              simp [g_strcmp0] at hxy2
              omega)
          simpa [g_strcmp0] using h0
        exact this
      have hy_not1 : y ∉ x :: t1 := by
        intro hmem
        rcases List.mem_cons.mp hmem with h | h
        · subst h; exact strcmp_lt_irrefl y hyx
        · exact strcmp_lt_irrefl y (strcmp_lt_trans hyx (hx_all _ h))
      obtain ⟨iha, ihr⟩ := ih h1 h2t
      rw [show diff_sorted_lists_aux (x :: t1) (y :: t2) a r =
          diff_sorted_lists_aux (x :: t1) t2 (y :: a) r from by
        simp [diff_sorted_lists_aux, hxy2, show ¬ g_strcmp0 x y < 0 from hxy1]]
      constructor
      · intro m
        rw [iha m]
        constructor
        · rintro (ha | ⟨h2m, h1m⟩)
          · rcases List.mem_cons.mp ha with h | h
            · subst h; exact Or.inr ⟨List.mem_cons_self _ _, hy_not1⟩
            · exact Or.inl h
          · exact Or.inr ⟨List.mem_cons_of_mem _ h2m, h1m⟩
        · rintro (ha | ⟨h2m, h1m⟩)
          · exact Or.inl (List.mem_cons_of_mem _ ha)
          · rcases List.mem_cons.mp h2m with h | h
            · subst h; exact Or.inl (List.mem_cons_self _ _)
            · exact Or.inr ⟨h, h1m⟩
      · intro m
        rw [ihr m]
        constructor
        · rintro (hr | ⟨h1m, h2m⟩)
          · exact Or.inl hr
          · refine Or.inr ⟨h1m, ?_⟩
            intro hmem
            rcases List.mem_cons.mp hmem with h | h
            · subst h; exact hy_not1 h1m
            · exact h2m h
        · rintro (hr | ⟨h1m, h2m⟩)
          · exact Or.inl hr
          · exact Or.inr ⟨h1m, fun h => h2m (List.mem_cons_of_mem _ h)⟩
  | case5 x t1 y t2 a r hxy1 hxy2 ih =>
      intro h1 h2
      obtain ⟨hx_all, h1t⟩ := List.pairwise_cons.mp h1
      obtain ⟨hy_all, h2t⟩ := List.pairwise_cons.mp h2
      have hxy : x = y := by
        apply g_strcmp0_eq_zero
        omega
      subst hxy
      have hx_not1 : x ∉ t1 := head_not_mem_of_lt_all hx_all
      have hx_not2 : x ∉ t2 := head_not_mem_of_lt_all hy_all
      obtain ⟨iha, ihr⟩ := ih h1t h2t
      rw [show diff_sorted_lists_aux (x :: t1) (x :: t2) a r =
          diff_sorted_lists_aux t1 t2 a r from by
        simp [diff_sorted_lists_aux, hxy1, hxy2]]
      constructor
      · intro m
        rw [iha m]
        constructor
        · rintro (ha | ⟨h2m, h1m⟩)
          · exact Or.inl ha
          · refine Or.inr ⟨List.mem_cons_of_mem _ h2m, ?_⟩
            intro hmem
            rcases List.mem_cons.mp hmem with h | h
            · subst h; exact hx_not2 h2m
            · exact h1m h
        · rintro (ha | ⟨h2m, h1m⟩)
          · exact Or.inl ha
          · rcases List.mem_cons.mp h2m with h | h
            · subst h; exact absurd (List.mem_cons_self _ _) h1m
            · exact Or.inr ⟨h, fun hm => h1m (List.mem_cons_of_mem _ hm)⟩
      · intro m
        rw [ihr m]
        constructor
        · rintro (hr | ⟨h1m, h2m⟩)
          · exact Or.inl hr
          · refine Or.inr ⟨List.mem_cons_of_mem _ h1m, ?_⟩
            intro hmem
            rcases List.mem_cons.mp hmem with h | h
            · subst h; exact hx_not1 h1m
            · exact h2m h
        · rintro (hr | ⟨h1m, h2m⟩)
          · exact Or.inl hr
          · rcases List.mem_cons.mp h1m with h | h
            · subst h; exact absurd (List.mem_cons_self _ _) h2m
            · exact Or.inr ⟨h, fun hm => h2m (List.mem_cons_of_mem _ hm)⟩

/-- **C9.** On a mount-table change, `update_vfs_unnamed_device` sorts the
previously published minor set and the newly computed minor set with
`g_strcmp0`, diffs them with `diff_sorted_lists`, and issues exactly one
control-file write per changed minor: `r<minor>` for each removed minor,
then `a<minor>` for each added minor, with all removals before any
additions.  The removed set is exactly the old minors absent from the new
set, the added set exactly the new minors absent from the old set. -/
theorem vfs_update_writes_spec (olds news : List String)
    (ho : olds.Nodup) (hn : news.Nodup) :
    update_vfs_writes olds news =
      ((diff_sorted_lists (olds.mergeSort strcmp_le) (news.mergeSort strcmp_le)).2.map
        (fun s => "r" ++ s)) ++
      ((diff_sorted_lists (olds.mergeSort strcmp_le) (news.mergeSort strcmp_le)).1.map
        (fun s => "a" ++ s)) ∧
    (∀ m, m ∈ (diff_sorted_lists (olds.mergeSort strcmp_le) (news.mergeSort strcmp_le)).2 ↔
      m ∈ olds ∧ m ∉ news) ∧
    (∀ m, m ∈ (diff_sorted_lists (olds.mergeSort strcmp_le) (news.mergeSort strcmp_le)).1 ↔
      m ∈ news ∧ m ∉ olds) := by
  have hso := pairwise_lt_mergeSort olds ho
  have hsn := pairwise_lt_mergeSort news hn
  obtain ⟨hadded, hremoved⟩ :=
    diff_aux_spec (olds.mergeSort strcmp_le) (news.mergeSort strcmp_le) [] [] hso hsn
  refine ⟨rfl, ?_, ?_⟩
  · intro m
    rw [show diff_sorted_lists (olds.mergeSort strcmp_le) (news.mergeSort strcmp_le) =
        diff_sorted_lists_aux (olds.mergeSort strcmp_le) (news.mergeSort strcmp_le) [] []
      from rfl]
    rw [hremoved m]
    simp [mem_mergeSort]
  · intro m
    rw [show diff_sorted_lists (olds.mergeSort strcmp_le) (news.mergeSort strcmp_le) =
        diff_sorted_lists_aux (olds.mergeSort strcmp_le) (news.mergeSort strcmp_le) [] []
      from rfl]
    rw [hadded m]
    simp [mem_mergeSort]

/-- Witness for C9: previously published minors `{1, 3}`, new minors
`{2, 3}` — one `r1` write followed by one `a2` write. -/
theorem vfs_update_writes_spec_witness :
    update_vfs_writes ["1", "3"] ["2", "3"] =
      ((diff_sorted_lists (["1", "3"].mergeSort strcmp_le)
        (["2", "3"].mergeSort strcmp_le)).2.map (fun s => "r" ++ s)) ++
      ((diff_sorted_lists (["1", "3"].mergeSort strcmp_le)
        (["2", "3"].mergeSort strcmp_le)).1.map (fun s => "a" ++ s)) ∧
    ("1" ∈ (diff_sorted_lists (["1", "3"].mergeSort strcmp_le)
        (["2", "3"].mergeSort strcmp_le)).2 ↔ "1" ∈ ["1", "3"] ∧ "1" ∉ ["2", "3"]) :=
  ⟨(vfs_update_writes_spec ["1", "3"] ["2", "3"] (by decide) (by decide)).1,
   (vfs_update_writes_spec ["1", "3"] ["2", "3"] (by decide) (by decide)).2.1 "1"⟩
